import Mathlib

/-!
A verification development for the Airbnb listing scraper / comparer backend.

The Python backend (src/backend) is shallowly embedded: Python dictionaries,
lists, strings, ints, bools, None and floats are modelled by the inductive
type `PyVal`; functions that can raise return `Except PyErr _`.  Python
floats are modelled as exact decimal numbers (a significand and a power of
ten) and float arithmetic as exact rational arithmetic; IEEE rounding of
decimal literals is not modelled (it is irrelevant to the properties proved
here, which only involve small decimal constants, sign tests and averages).
Unicode-sensitive Python primitives (`str.lower`, `str.strip`) are modelled
on their ASCII behaviour, which is the only behaviour the backend relies on.
-/

namespace Airbnb

/-- Opening-brace character, kept out of string literals. -/
def lbraceChar : Char := Char.ofNat 123

/-- Closing-brace character, kept out of string literals. -/
def rbraceChar : Char := Char.ofNat 125

/-- Whitespace as recognised by Python `str.strip` (ASCII part). -/
def pyIsSpace (c : Char) : Bool :=
  c = ' ' || c = '\t' || c = '\n' || c = '\x0d' || c = '\x0b' || c = '\x0c'

/-- Python `str.strip()` on a character list (ASCII whitespace). -/
def stripChars (cs : List Char) : List Char :=
  ((cs.dropWhile pyIsSpace).reverse.dropWhile pyIsSpace).reverse

/-- Python `str.strip()`. -/
def pyStrip (s : String) : String := String.mk (stripChars s.data)

/-- Python `str.lower()` (ASCII behaviour). -/
def pyLower (s : String) : String := String.mk (s.data.map Char.toLower)

/-- The loop of Python `str.replace` (fuel-bounded; fuel at least the
input length suffices, since a replacement consumes at least one
character when `old` is non-empty). -/
def replaceListAux (old new : List Char) : Nat → List Char → List Char
  | 0, cs => cs
  | _ + 1, [] => []
  | fuel + 1, c :: cs =>
    if old ≠ [] ∧ old.isPrefixOf (c :: cs) then
      new ++ replaceListAux old new fuel ((c :: cs).drop old.length)
    else
      c :: replaceListAux old new fuel cs

/-- Python `str.replace(old, new)`: left-to-right, non-overlapping
replacement.  Only called with non-empty `old` in this development. -/
def replaceList (old new cs : List Char) : List Char :=
  replaceListAux old new cs.length cs

/-- Python `str.replace` on `String`. -/
def pyReplace (s old new : String) : String :=
  String.mk (replaceList old.data new.data s.data)

/-- Python substring containment (`needle in haystack` for strings). -/
def subListOf (needle : List Char) : List Char → Bool
  | [] => needle.isEmpty
  | c :: cs => needle.isPrefixOf (c :: cs) || subListOf needle cs

/-- Python `str.split(sep)` for a single-character separator `\n`
(the only use in the backend).  Returns the (possibly empty) fields. -/
def splitOnNl (cs : List Char) : List (List Char) :=
  match cs with
  | [] => [[]]
  | c :: rest =>
    let tail := splitOnNl rest
    if c = '\n' then [] :: tail
    else
      match tail with
      | [] => [[c]]
      | f :: fs => (c :: f) :: fs

/-- The character for a decimal digit value. -/
def digitChar (d : Nat) : Char :=
  match d with
  | 0 => '0' | 1 => '1' | 2 => '2' | 3 => '3' | 4 => '4'
  | 5 => '5' | 6 => '6' | 7 => '7' | 8 => '8' | _ => '9'

/-- Little-endian decimal digits of `n` (with fuel). -/
def natDigitsAux (fuel n : Nat) : List Char :=
  match fuel with
  | 0 => []
  | f + 1 => if n = 0 then [] else digitChar (n % 10) :: natDigitsAux f (n / 10)

/-- Decimal digit characters of a natural number (Python `str` of a Nat). -/
def natDigits (n : Nat) : List Char :=
  if n = 0 then ['0'] else (natDigitsAux n n).reverse

/-- Python `str(int)`. -/
def intRepr (n : Int) : String :=
  if n < 0 then String.mk ('-' :: natDigits n.natAbs) else String.mk (natDigits n.natAbs)

/-- The exact rational value of a decimal significand/scale pair:
`m / 10 ^ e`.  This is the model of a Python float. -/
def decVal (m : Int) (e : Nat) : ℚ := (m : ℚ) / (10 : ℚ) ^ e

/-- Digit string of the model float `m / 10 ^ e`, as printed by Python
`repr`/`str` for floats in the fixed-point range: the digits of `|m|`
left-padded with zeros to at least `e + 1` digits, with a decimal point
inserted before the last `e` of them. -/
def floatDigits (a : Nat) (e : Nat) : List Char :=
  let ds := natDigits a
  let ds := List.replicate (e + 1 - ds.length) '0' ++ ds
  ds.take (ds.length - e) ++ '.' :: ds.drop (ds.length - e)

/-- Python `repr` of the model float `m / 10 ^ e` (fixed-point form;
the scientific notation Python uses for extreme magnitudes is not
modelled, no claim depends on it). -/
def floatRepr (m : Int) (e : Nat) : String :=
  if m < 0 then String.mk ('-' :: floatDigits m.natAbs e)
  else String.mk (floatDigits m.natAbs e)

/-- Errors raised by the modelled Python code. -/
inductive PyErr where
  /-- `ValueError(msg)`. -/
  | valueError (msg : String)
  /-- `TypeError`. -/
  | typeError
  /-- `AttributeError`. -/
  | attributeError
  /-- `KeyError`. -/
  | keyError
  /-- `IndexError`. -/
  | indexError
  /-- `sqlite3.InterfaceError` (unsupported bind parameter type). -/
  | interfaceError
  /-- `json.JSONDecodeError`. -/
  | jsonDecodeError
deriving DecidableEq, Repr

/-- The model of a Python value as produced/consumed by the backend:
`None`, `bool`, `int`, `float` (an exact decimal `m / 10 ^ e`), `str`,
`list`, and `dict` with string keys (an association list in insertion
order; Python dicts never hold duplicate keys, which is the `WfVal`
invariant below). -/
inductive PyVal where
  | none
  | bool (b : Bool)
  | int (n : Int)
  | float (m : Int) (e : Nat)
  | str (s : String)
  | list (xs : List PyVal)
  | dict (entries : List (String × PyVal))

/-- A Python dict payload: an association list of string keys in
insertion order. -/
abbrev PyDict := List (String × PyVal)

/-- Python truthiness (`bool(v)`). -/
def pyTruthy : PyVal → Bool
  | .none => false
  | .bool b => b
  | .int n => n ≠ 0
  | .float m _ => m ≠ 0
  | .str s => !s.data.isEmpty
  | .list xs => !xs.isEmpty
  | .dict d => !d.isEmpty

/-- Python dict lookup (`d.get(k)`), first (unique) matching key. -/
def dictGet (d : PyDict) (k : String) : Option PyVal :=
  match d with
  | [] => Option.none
  | (k', v) :: rest => if k' = k then some v else dictGet rest k

/-- Python `d.get(k, default)`. -/
def dictGetD (d : PyDict) (k : String) (dflt : PyVal) : PyVal :=
  (dictGet d k).getD dflt

/-- Association-list assignment `d[k] = v` with Python dict semantics:
replaces the value in place if the key is present (keeping its position),
otherwise appends. -/
def alistSet {α : Type} (d : List (String × α)) (k : String) (v : α) : List (String × α) :=
  match d with
  | [] => [(k, v)]
  | (k', v') :: rest => if k' = k then (k', v) :: rest else (k', v') :: alistSet rest k v

/-- Python dict assignment `d[k] = v`. -/
def dictSet (d : PyDict) (k : String) (v : PyVal) : PyDict := alistSet d k v

/-- Python `repr` of a string: quote choice and the common escapes
(backslash, the quote character, newline, carriage return, tab).  The
`\xXX` escapes Python uses for other control characters are not modelled;
the backend only ever calls `str()` on container values in degenerate
payloads, and no claim depends on the exact text. -/
def reprStr (s : String) : String :=
  let q : Char := if s.data.contains '\'' ∧ ¬ s.data.contains '"' then '"' else '\''
  let esc : Char → List Char := fun c =>
    if c = '\\' then ['\\', '\\']
    else if c = q then ['\\', q]
    else if c = '\n' then ['\\', 'n']
    else if c = '\x0d' then ['\\', 'r']
    else if c = '\t' then ['\\', 't']
    else [c]
  String.mk (q :: s.data.flatMap esc ++ [q])

mutual

/-- Python `repr(v)`. -/
def pyReprVal : PyVal → String
  | .none => "None"
  | .bool b => if b then "True" else "False"
  | .int n => intRepr n
  | .float m e => floatRepr m e
  | .str s => reprStr s
  | .list xs => "[" ++ pyReprElems xs ++ "]"
  | .dict d => String.mk [lbraceChar] ++ pyReprEntries d ++ String.mk [rbraceChar]

/-- Comma-separated `repr`s of list elements. -/
def pyReprElems : List PyVal → String
  | [] => ""
  | [x] => pyReprVal x
  | x :: y :: rest => pyReprVal x ++ ", " ++ pyReprElems (y :: rest)

/-- Comma-separated `repr`s of dict entries. -/
def pyReprEntries : PyDict → String
  | [] => ""
  | [(k, v)] => reprStr k ++ ": " ++ pyReprVal v
  | (k, v) :: e :: rest => reprStr k ++ ": " ++ pyReprVal v ++ ", " ++ pyReprEntries (e :: rest)

end

/-- Python `str(v)`. -/
def pyStrOf (v : PyVal) : String :=
  match v with
  | .str s => s
  | _ => pyReprVal v

/-- Python iteration `for x in v`: lists yield elements, strings yield
one-character strings, dicts yield their keys; other values raise
`TypeError`. -/
def pyIterate (v : PyVal) : Except PyErr (List PyVal) :=
  match v with
  | .list xs => .ok xs
  | .str s => .ok (s.data.map fun c => .str (String.mk [c]))
  | .dict d => .ok (d.map fun kv => .str kv.1)
  | _ => .error .typeError

/-- Python `needle in v` for a string needle: key membership for dicts,
substring for strings, element equality for lists; `TypeError` otherwise. -/
def pyContains (v : PyVal) (needle : String) : Except PyErr Bool :=
  match v with
  | .dict d => .ok (d.any fun kv => kv.1 == needle)
  | .str s => .ok (subListOf needle.data s.data)
  | .list xs => .ok (xs.any fun x => match x with | .str s => s == needle | _ => false)
  | _ => .error .typeError

/-- Python subscription `v[k]` with a string key: dict lookup
(`KeyError` when absent); strings and lists require integer indices, so a
string key raises `TypeError`, as does any non-container. -/
def pySubscript (v : PyVal) (k : String) : Except PyErr PyVal :=
  match v with
  | .dict d =>
    match dictGet d k with
    | some x => .ok x
    | Option.none => .error .keyError
  | _ => .error .typeError

/-- Python `v.get(k, dflt)`: only dicts have `.get`; anything else raises
`AttributeError`. -/
def pyGetMeth (v : PyVal) (k : String) (dflt : PyVal) : Except PyErr PyVal :=
  match v with
  | .dict d => .ok (dictGetD d k dflt)
  | _ => .error .attributeError

/-- Python `v.lower()`: only strings have `.lower`; anything else raises
`AttributeError`. -/
def pyLowerMeth (v : PyVal) : Except PyErr String :=
  match v with
  | .str s => .ok (pyLower s)
  | _ => .error .attributeError

/-- Value of a non-empty all-digit character list. -/
def natOfDigits (ds : List Char) : Nat :=
  ds.foldl (fun a c => a * 10 + (c.toNat - 48)) 0

/-- Python `int(s)` on a string: surrounding whitespace stripped, an
optional sign, then one or more digits (digit-group underscores are not
modelled).  `Option.none` models `ValueError`. -/
def pyIntOfString (s : String) : Option Int :=
  let t := stripChars s.data
  let sgn : Int := if t.head? = some '-' then -1 else 1
  let body := if t.head? = some '-' ∨ t.head? = some '+' then t.tail else t
  if !body.isEmpty ∧ body.all Char.isDigit then
    some (sgn * (natOfDigits body : Int))
  else
    Option.none

/-- Exponent suffix of a Python float literal: either nothing, or
`e`/`E`, an optional sign and one or more digits consuming the rest. -/
def parseExpPart (cs : List Char) : Option Int :=
  match cs with
  | [] => some 0
  | e :: r =>
    if e = 'e' ∨ e = 'E' then
      let sgn : Int := if r.head? = some '-' then -1 else 1
      let body := if r.head? = some '-' ∨ r.head? = some '+' then r.tail else r
      if !body.isEmpty ∧ body.all Char.isDigit then
        some (sgn * (natOfDigits body : Int))
      else
        Option.none
    else
      Option.none

/-- Python `float(s)` on a string, as an exact rational: whitespace
stripped, optional sign, digits with at most one decimal point (at least
one digit overall), optional exponent.  `Option.none` models `ValueError`;
the `inf`/`nan` spellings Python also accepts produce values that fail
every `0 ≤ x ≤ 10` / `x > 0` test in the backend, and are folded into
`Option.none` here. -/
def pyFloatOfString (s : String) : Option ℚ :=
  let t := stripChars s.data
  let sgn : ℚ := if t.head? = some '-' then -1 else 1
  let u := if t.head? = some '-' ∨ t.head? = some '+' then t.tail else t
  let ip := u.takeWhile Char.isDigit
  let r1 := u.dropWhile Char.isDigit
  let fracAndRest : List Char × List Char :=
    if r1.head? = some '.' then (r1.tail.takeWhile Char.isDigit, r1.tail.dropWhile Char.isDigit)
    else ([], r1)
  let fp := fracAndRest.1
  if ip.isEmpty ∧ fp.isEmpty then Option.none
  else
    match parseExpPart fracAndRest.2 with
    | some ex =>
      some (sgn * ((natOfDigits ip : ℚ) + (natOfDigits fp : ℚ) / (10 : ℚ) ^ fp.length)
        * (10 : ℚ) ^ (ex : ℤ))
    | Option.none => Option.none

/-- Python `int(v)`: ints pass through, bools become 0/1, floats truncate
toward zero, strings are parsed (`ValueError` on failure); `None`, lists
and dicts raise `TypeError`. -/
def pyIntOf (v : PyVal) : Except PyErr Int :=
  match v with
  | .int n => .ok n
  | .bool b => .ok (if b then 1 else 0)
  | .float m e => .ok ((if m < 0 then -1 else 1) * ((m.natAbs / 10 ^ e : Nat) : Int))
  | .str s =>
    match pyIntOfString s with
    | some n => .ok n
    | Option.none => .error (.valueError "invalid literal for int")
  | _ => .error .typeError

/-- Round to the nearest integer, ties to even (Python `round`'s rule). -/
def roundHalfEven (q : ℚ) : Int :=
  let f := ⌊q⌋
  let r := q - (f : ℚ)
  if r < 1 / 2 then f
  else if 1 / 2 < r then f + 1
  else if f % 2 = 0 then f else f + 1

/-- Python `round(x, 2)` on the exact-rational float model. -/
def pyRound2 (q : ℚ) : ℚ := (roundHalfEven (q * 100) : ℚ) / 100

/-- Multiplicity of `p` in `n` (with fuel). -/
def multiplicityOf (p : Nat) : Nat → Nat → Nat
  | 0, _ => 0
  | _, 0 => 0
  | fuel + 1, n => if 1 < p ∧ n % p = 0 then multiplicityOf p fuel (n / p) + 1 else 0

/-- Embed a rational with a decimal denominator back into the float model
(used where the backend stores a computed float in a record).  Exact
whenever the denominator divides a power of ten, which holds for every
value the backend computes. -/
def ratToPyFloat (q : ℚ) : PyVal :=
  let d := q.den
  let e := max (max (multiplicityOf 2 d d) (multiplicityOf 5 d d)) 1
  .float (q.num * ((10 ^ e / d : Nat) : Int)) e

/-! ### JSON serialization (`json.dumps` with its defaults)

`json.dumps` is called with its default arguments (`ensure_ascii=True`,
separators `", "` and `": "`): every character outside printable ASCII is
escaped, code points above the BMP as a UTF-16 surrogate pair. -/

/-- Lower-case hexadecimal digit. -/
def hexDigitChar (n : Nat) : Char :=
  match n with
  | 0 => '0' | 1 => '1' | 2 => '2' | 3 => '3' | 4 => '4'
  | 5 => '5' | 6 => '6' | 7 => '7' | 8 => '8' | 9 => '9'
  | 10 => 'a' | 11 => 'b' | 12 => 'c' | 13 => 'd' | 14 => 'e' | _ => 'f'

/-- Four-digit lower-case hexadecimal rendering (for `\uXXXX`). -/
def hex4 (n : Nat) : List Char :=
  [hexDigitChar (n / 4096 % 16), hexDigitChar (n / 256 % 16),
   hexDigitChar (n / 16 % 16), hexDigitChar (n % 16)]

/-- `json.dumps` escaping of one character (`ensure_ascii=True`). -/
def escapeChar (c : Char) : List Char :=
  if c = '"' then ['\\', '"']
  else if c = '\\' then ['\\', '\\']
  else if c = '\n' then ['\\', 'n']
  else if c = '\t' then ['\\', 't']
  else if c = '\x0d' then ['\\', 'r']
  else if c = '\x08' then ['\\', 'b']
  else if c = '\x0c' then ['\\', 'f']
  else if 32 ≤ c.toNat ∧ c.toNat ≤ 126 then [c]
  else if c.toNat < 65536 then '\\' :: 'u' :: hex4 c.toNat
  else
    let v := c.toNat - 65536
    ('\\' :: 'u' :: hex4 (55296 + v / 1024)) ++ ('\\' :: 'u' :: hex4 (56320 + v % 1024))

/-- `json.dumps` rendering of a string. -/
def encodeStr (s : String) : List Char :=
  '"' :: s.data.flatMap escapeChar ++ ['"']

mutual

/-- `json.dumps(v)` as a character list (default separators). -/
def dumpVal : PyVal → List Char
  | .none => ['n', 'u', 'l', 'l']
  | .bool b => if b then ['t', 'r', 'u', 'e'] else ['f', 'a', 'l', 's', 'e']
  | .int n => (intRepr n).data
  | .float m e => (floatRepr m e).data
  | .str s => encodeStr s
  | .list xs => '[' :: dumpElems xs ++ [']']
  | .dict d => lbraceChar :: dumpEntries d ++ [rbraceChar]

/-- `", "`-separated dumps of list elements. -/
def dumpElems : List PyVal → List Char
  | [] => []
  | [x] => dumpVal x
  | x :: y :: rest => dumpVal x ++ ',' :: ' ' :: dumpElems (y :: rest)

/-- `", "`-separated dumps of dict entries (`key: value`). -/
def dumpEntries : PyDict → List Char
  | [] => []
  | [(k, v)] => encodeStr k ++ ':' :: ' ' :: dumpVal v
  | (k, v) :: e :: rest => encodeStr k ++ ':' :: ' ' :: dumpVal v ++ ',' :: ' ' :: dumpEntries (e :: rest)

end

/-- `json.dumps(v)` (src/backend/db_helpers.py, data_processor.py). -/
def dumps (v : PyVal) : String := String.mk (dumpVal v)

/-! ### Field extractors (src/backend/data_processor.py) -/

/-- First match of the regex `[\d,]+\.?\d*` in a character list: the
earliest maximal run of digits/commas, optionally followed by a decimal
point and a maximal run of digits. -/
def firstNumRun : List Char → Option (List Char)
  | [] => Option.none
  | c :: rest =>
    if c.isDigit ∨ c = ',' then
      let run1 := (c :: rest).takeWhile (fun x => x.isDigit || x = ',')
      let r1 := (c :: rest).dropWhile (fun x => x.isDigit || x = ',')
      match r1 with
      | '.' :: r2 => some (run1 ++ '.' :: r2.takeWhile Char.isDigit)
      | _ => some run1
    else firstNumRun rest

/-- `_extract_numeric_price` (data_processor.py lines 25-51): falsy input
gives 0.0; otherwise the first `[\d,]+\.?\d*` match of `str(price_str)`,
commas removed, converted by `float` (a `ValueError` — e.g. a comma-only
match — is caught and gives 0.0); no match gives 0.0. -/
def _extract_numeric_price (price_str : PyVal) : ℚ :=
  if pyTruthy price_str = false then 0
  else
    match firstNumRun (pyStrOf price_str).data with
    | some run =>
      match pyFloatOfString (pyReplace (String.mk run) "," "") with
      | some q => q
      | Option.none => 0
    | Option.none => 0

/-- `isinstance(x, (str, int, float))` (Python bools are ints). -/
def isStrIntFloat : PyVal → Bool
  | .str _ => true
  | .int _ => true
  | .bool _ => true
  | .float _ _ => true
  | _ => false

/-- The body of `extract_price` before its catch-all handler. -/
def extract_price_core (data : PyDict) : Except PyErr ℚ := do
  let price_data := dictGetD data "price" (.dict [])
  let main_price_data ← pyGetMeth price_data "main" (.dict [])
  let discounted_price0 ← pyGetMeth main_price_data "discountedPrice" (.str "")
  let regular_price0 ← pyGetMeth main_price_data "price" (.str "")
  let discounted_price := if isStrIntFloat discounted_price0 then discounted_price0 else .str ""
  let regular_price := if isStrIntFloat regular_price0 then regular_price0 else .str ""
  let discounted_price_value := _extract_numeric_price discounted_price
  let regular_price_value := _extract_numeric_price regular_price
  return (if discounted_price_value > 0 then discounted_price_value else regular_price_value)

/-- `extract_price` (data_processor.py lines 119-160): any exception in
the body is caught and gives 0.0. -/
def extract_price (data : PyDict) : ℚ :=
  match extract_price_core data with
  | .ok q => q
  | .error _ => 0

/-- `_clean_html_content` (data_processor.py lines 54-67). -/
def _clean_html_content (content : String) : String :=
  if content.data.isEmpty then ""
  else pyReplace (pyReplace content "<br />" "\n") "&nbsp;" " "

/-- The numeric value the rating loop derives from one dict value:
non-blank strings are parsed by `float` (failures are skipped), bools and
ints and floats convert directly, anything else is skipped. -/
def ratingValue (v : PyVal) : Option ℚ :=
  match v with
  | .str s => if (stripChars s.data).isEmpty then Option.none else pyFloatOfString s
  | .bool b => some (if b then 1 else 0)
  | .int n => some (n : ℚ)
  | .float m e => some (decVal m e)
  | _ => Option.none

/-- The list of ratings `calculate_average_rating` accumulates: every
entry except the `review_count` key whose value converts to a number in
`[0, 10]`. -/
def validRatings (entries : PyDict) : List ℚ :=
  entries.filterMap fun kv =>
    if kv.1 = "review_count" then Option.none
    else
      match ratingValue kv.2 with
      | some q => if 0 ≤ q ∧ q ≤ 10 then some q else Option.none
      | Option.none => Option.none

/-- `calculate_average_rating` (data_processor.py lines 75-116): falsy
input gives 0.0; a truthy non-dict raises `AttributeError` at `.items()`;
otherwise the valid ratings are averaged and rounded to 2 decimal places
(0.0 if none remain). -/
def calculate_average_rating (rating_data : PyVal) : Except PyErr ℚ :=
  if pyTruthy rating_data = false then .ok 0
  else
    match rating_data with
    | .dict entries =>
      let ratings := validRatings entries
      .ok (if ratings.isEmpty then 0 else pyRound2 (ratings.sum / (ratings.length : ℚ)))
    | _ => .error .attributeError

/-- One step of the `extract_location_info` loop over the running
`(location, getting_around)` state (data_processor.py lines 228-246). -/
def locStep (st : String × String) (d : PyVal) : Except PyErr (String × String) := do
  if pyTruthy d = false then return st
  let ht ← pyContains d "title"
  if ht = false then return st
  let hc ← pyContains d "content"
  if hc = false then return st
  let tv ← pySubscript d "title"
  let cv ← pySubscript d "content"
  let title := pyStrip (pyLower (pyStrOf tv))
  let content := _clean_html_content (pyStrOf cv)
  if title = "getting around" then return (st.1, content)
  else if title = "neighbourhood highlights" then return (content, st.2)
  else if st.1 = "" ∧ content ≠ "" then return (content, st.2)
  else return st

/-- `extract_location_info` (data_processor.py lines 210-248). -/
def extract_location_info (location_descriptions : PyVal) : Except PyErr (String × String) := do
  if pyTruthy location_descriptions = false then return ("", "")
  let elems ← pyIterate location_descriptions
  elems.foldlM locStep ("", "")

/-- One step of the `extract_highlights` loop. -/
def highlightStep (acc : List String) (h : PyVal) : Except PyErr (List String) := do
  if pyTruthy h = false then return acc
  let ht ← pyContains h "title"
  if ht = false then return acc
  let tv ← pySubscript h "title"
  let t := pyStrip (pyStrOf tv)
  if t ≠ "" then return acc ++ [t] else return acc

/-- `extract_highlights` (data_processor.py lines 251-272). -/
def extract_highlights (highlights_data : PyVal) : Except PyErr (List String) := do
  if pyTruthy highlights_data = false then return []
  let elems ← pyIterate highlights_data
  elems.foldlM highlightStep []

/-- One item of an amenity entry's `values` list. -/
def amenityItemStep (acc : List String) (item : PyVal) : Except PyErr (List String) := do
  let ht ← pyContains item "title"
  if ht = false then return acc
  let tv ← pySubscript item "title"
  let base := pyStrip (pyStrOf tv)
  let hs ← pyContains item "subtitle"
  let result ←
    if hs then do
      let sv ← pySubscript item "subtitle"
      pure (base ++ ": (" ++ pyStrip (pyStrOf sv) ++ ")")
    else pure base
  if result ≠ "" then return acc ++ [result] else return acc

/-- The body of the inner `try` of `extract_amenities` for one entry. -/
def amenityEntryVals (entry : PyVal) : Except PyErr (List String) := do
  let values ← pySubscript entry "values"
  let items ← pyIterate values
  items.foldlM amenityItemStep []

/-- One entry of the `extract_amenities` loop; the inner `try` catches
`KeyError` and `TypeError` and skips the entry. -/
def amenitiesStep (acc : List (String × List String)) (entry : PyVal) :
    Except PyErr (List (String × List String)) := do
  if pyTruthy entry = false then return acc
  let ht ← pyContains entry "title"
  if ht = false then return acc
  let hv ← pyContains entry "values"
  if hv = false then return acc
  let tv ← pySubscript entry "title"
  let amenity_title := pyStrip (pyStrOf tv)
  if amenity_title = "" then return acc
  match amenityEntryVals entry with
  | .ok vals => if vals ≠ [] then return alistSet acc amenity_title vals else return acc
  | .error .keyError => return acc
  | .error .typeError => return acc
  | .error e => .error e

/-- `extract_amenities` (data_processor.py lines 163-207): a mapping from
category title to amenity display strings, in insertion order. -/
def extract_amenities (amenities_data : PyVal) : Except PyErr (List (String × List String)) := do
  if pyTruthy amenities_data = false then return []
  let elems ← pyIterate amenities_data
  elems.foldlM amenitiesStep []

/-- One review of the `extract_reviews_summary` loop; the inner `try`
catches `ValueError` and `TypeError` from `int(review["rating"])`. -/
def reviewStep (acc : List PyVal) (review : PyVal) : Except PyErr (List PyVal) := do
  if pyTruthy review = false then return acc
  let hc ← pyContains review "comments"
  if hc = false then return acc
  let hr ← pyContains review "rating"
  if hr = false then return acc
  let lang ← pyGetMeth review "language" (.str "")
  let langLower ← pyLowerMeth lang
  if langLower ≠ "en" then return acc
  if acc.length ≥ 5 then return acc
  let cv ← pySubscript review "comments"
  let comment := pyStrip (pyStrOf cv)
  if comment = "" then return acc
  let rv ← pySubscript review "rating"
  match pyIntOf rv with
  | .ok rating => do
    let dv ← pyGetMeth review "localizedDate" (.str "")
    return acc ++ [.dict [("comment", .str comment), ("rating", .int rating),
                          ("date", .str (pyStrip (pyStrOf dv)))]]
  | .error (.valueError _) => return acc
  | .error .typeError => return acc
  | .error e => .error e

/-- `extract_reviews_summary` (data_processor.py lines 275-319): at most
5 English-language reviews with a non-empty comment and an
integer-convertible rating, in source order. -/
def extract_reviews_summary (reviews_data : PyVal) : Except PyErr (List PyVal) := do
  if pyTruthy reviews_data = false then return []
  let elems ← pyIterate reviews_data
  elems.foldlM reviewStep []

/-- The structured result of `extract_house_rules`. -/
structure HouseRules where
  additional_rules : List String
  general_rules : List (String × List String)
  check_in_out : List String
deriving DecidableEq, Repr

/-- One rule group of the `extract_house_rules` loop (pure: only dict and
list operations are performed on checked shapes). -/
def ruleGroupStep (st : HouseRules) (rule_group : PyVal) : HouseRules :=
  if pyTruthy rule_group = false then st
  else
    match rule_group with
    | .dict rg =>
      if (dictGet rg "title").isNone then st
      else if (dictGet rg "values").isNone then st
      else
        let title := pyStrip (pyStrOf ((dictGet rg "title").getD .none))
        match (dictGet rg "values").getD .none with
        | .list items =>
          let rule_values := items.filterMap fun item =>
            match item with
            | .dict idict =>
              if pyTruthy item ∧ (dictGet idict "title").isSome then
                let it := pyStrip (pyStrOf ((dictGet idict "title").getD .none))
                if it ≠ "" then some it else Option.none
              else Option.none
            | _ => Option.none
          if rule_values ≠ [] then
            if pyLower title = "checking in and out" then
              { st with check_in_out := rule_values }
            else
              { st with general_rules := st.general_rules ++ [(title, rule_values)] }
          else st
        | _ => st
    | _ => st

/-- `extract_house_rules` (data_processor.py lines 322-392): a falsy
input gives the empty rule structure; a truthy non-dict raises
`AttributeError` at `.get`; otherwise the additional-rules block is split
on newlines and the general rule groups are bucketed. -/
def extract_house_rules (house_rules_data : PyVal) : Except PyErr HouseRules := do
  if pyTruthy house_rules_data = false then return ⟨[], [], []⟩
  let additional_rules_raw ← pyGetMeth house_rules_data "additional" (.str "")
  let additional_rules :=
    if pyTruthy additional_rules_raw then
      let raw_string := pyStrOf additional_rules_raw
      let rules_list := (splitOnNl raw_string.data).filterMap fun r =>
        let t := String.mk (stripChars r)
        if t ≠ "" then some t else Option.none
      if rules_list ≠ [] then rules_list
      else
        let clean_rule := pyStrip raw_string
        if clean_rule ≠ "" then [clean_rule] else []
    else []
  let general_rules ← pyGetMeth house_rules_data "general" (.list [])
  match general_rules with
  | .list groups => return groups.foldl ruleGroupStep ⟨additional_rules, [], []⟩
  | _ => return ⟨additional_rules, [], []⟩

/-- `extract_property_details` (data_processor.py lines 395-418). -/
def extract_property_details (data : PyDict) : PyVal :=
  let layout_items : PyVal :=
    match dictGetD data "sub_description" (.dict []) with
    | .dict sd =>
      match dictGetD sd "items" (.list []) with
      | .list xs => .list xs
      | _ => .list []
    | _ => .list []
  .dict [("room_type", .str (pyStrip (pyStrOf (dictGetD data "room_type" (.str ""))))),
         ("is_guest_favorite", .bool (pyTruthy (dictGetD data "is_guest_favorite" (.bool false)))),
         ("is_super_host", .bool (pyTruthy (dictGetD data "is_super_host" (.bool false)))),
         ("layout", layout_items)]

/-! ### Normalization orchestrator and validator (data_processor.py) -/

/-- The record value of the extracted house rules, in the key order of
the `rules` dict literal (data_processor.py lines 355-359). -/
def houseRulesVal (hr : HouseRules) : PyVal :=
  .dict [("additional_rules", .list (hr.additional_rules.map .str)),
         ("general_rules", .list (hr.general_rules.map fun kv =>
            .dict [("category", .str kv.1), ("rules", .list (kv.2.map .str))])),
         ("check_in_out", .list (hr.check_in_out.map .str))]

/-- The image-URL list assembled inline by `process_listing_data`
(lines 524-532): a non-list value is ignored, and each entry must be a
truthy dict with a `url` key whose stripped string form is non-empty. -/
def extractImages (images_data : PyVal) : List String :=
  match images_data with
  | .list xs =>
    xs.filterMap fun img =>
      match img with
      | .dict idct =>
        if pyTruthy img ∧ (dictGet idct "url").isSome then
          let u := pyStrip (pyStrOf ((dictGet idct "url").getD .none))
          if u ≠ "" then some u else Option.none
        else Option.none
      | _ => Option.none
  | _ => []

/-- `process_listing_data` (data_processor.py lines 455-553): the four
argument guards, then the assembly of the flat record in source order.
The best-effort debug JSON dump (`_write_debug_json`) only touches the
filesystem and never affects the result; it is modelled as a no-op.
Every exception the body raises is logged and re-raised, so errors
propagate unchanged. -/
def process_listing_data (data : PyDict) (listing_id : Int) (link : String)
    (stay_length : Int) : Except PyErr PyVal := do
  if data.isEmpty then throw (.valueError "Data must be a non-empty dictionary")
  if listing_id ≤ 0 then throw (.valueError "Listing ID must be a positive integer")
  if pyStrip link = "" then throw (.valueError "Link must be a non-empty string")
  if stay_length ≤ 0 then throw (.valueError "Stay length must be a positive integer")
  let total_cost := extract_price data
  let coordinates := dictGetD data "coordinates" (.dict [])
  let coordStr :=
    match coordinates with
    | .dict _ => dumps coordinates
    | _ => dumps (.dict [])
  let super_host := pyTruthy (dictGetD data "is_super_host" (.bool false))
  let capacity ← pyIntOf (dictGetD data "person_capacity" (.int 0))
  let average_rating ← calculate_average_rating (dictGetD data "rating" (.dict []))
  let extracted_rules ← extract_house_rules (dictGetD data "house_rules" (.dict []))
  let amenities ← extract_amenities (dictGetD data "amenities" (.list []))
  let images := extractImages (dictGetD data "images" (.list []))
  let locInfo ← extract_location_info (dictGetD data "location_descriptions" (.list []))
  let highlights ← extract_highlights (dictGetD data "highlights" (.list []))
  let reviews ← extract_reviews_summary (dictGetD data "reviews" (.list []))
  return .dict
    [("id", .int listing_id),
     ("url", .str (pyStrip link)),
     ("duration", .int stay_length),
     ("cost", ratToPyFloat total_cost),
     ("coordinates", .str coordStr),
     ("super_host", .bool super_host),
     ("capacity", .int capacity),
     ("average_rating", ratToPyFloat average_rating),
     ("check_in_out", .list (extracted_rules.check_in_out.map .str)),
     ("amenities", .dict (amenities.map fun kv => (kv.1, .list (kv.2.map .str)))),
     ("images", .list (images.map .str)),
     ("location", .str locInfo.1),
     ("getting_around", .str locInfo.2),
     ("highlights", .list (highlights.map .str)),
     ("reviews_summary", .list reviews),
     ("house_rules", houseRulesVal extracted_rules),
     ("property_details", extract_property_details data)]

/-- `REQUIRED_LISTING_FIELDS` (src/backend/constants.py line 39). -/
def REQUIRED_LISTING_FIELDS : List String := ["id", "url", "cost"]

/-- `isinstance(v, int)` — Python bools are ints. -/
def isinstance_int : PyVal → Bool
  | .int _ => true
  | .bool _ => true
  | _ => false

/-- `isinstance(v, (int, float))`. -/
def isinstance_num : PyVal → Bool
  | .int _ => true
  | .bool _ => true
  | .float _ _ => true
  | _ => false

/-- The numeric value of an int/bool/float (for comparisons). -/
def pyNumVal : PyVal → ℚ
  | .int n => (n : ℚ)
  | .bool b => if b then 1 else 0
  | .float m e => decVal m e
  | _ => 0

/-- `validate_listing_data` (data_processor.py lines 556-595): non-empty
dict, the `REQUIRED_LISTING_FIELDS` present, `id` a positive int, `url` a
non-blank string, `cost` a non-negative number. -/
def validate_listing_data (listing_data : PyDict) : Bool :=
  if listing_data.isEmpty then false
  else if !(REQUIRED_LISTING_FIELDS.filter fun f => (dictGet listing_data f).isNone).isEmpty then
    false
  else
    let lid := (dictGet listing_data "id").getD .none
    if ¬ isinstance_int lid ∨ pyNumVal lid ≤ 0 then false
    else
      let url := (dictGet listing_data "url").getD .none
      match url with
      | .str u =>
        if pyStrip u = "" then false
        else
          let cost := (dictGet listing_data "cost").getD .none
          if ¬ isinstance_num cost ∨ pyNumVal cost < 0 then false else true
      | _ => false

/-! ### URL parser (src/backend/url_utils.py)

`datetime.fromisoformat` is modelled on naive `YYYY-MM-DD[<sep>HH[:MM[:SS]]]`
inputs (any single separator character, zero-padded fields), exactly as
Python parses them; fractional seconds, timezone offsets and the compact
forms Python 3.11+ additionally accepts are not modelled.  A datetime is a
proleptic-Gregorian day number plus seconds within the day; only
differences of day numbers are ever used, so the epoch is irrelevant. -/

/-- A naive Python `datetime`: day number and seconds within the day. -/
structure PyDateTime where
  ord : Int
  sec : Nat
deriving DecidableEq, Repr

/-- Day number of a proleptic Gregorian calendar date (the standard
days-from-civil algorithm; epoch 0000-03-01). -/
def daysFromCivil (y : Int) (m d : Nat) : Int :=
  let y' := if m ≤ 2 then y - 1 else y
  let era := Int.fdiv y' 400
  let yoe := (y' - era * 400).toNat
  let mp := (m + 9) % 12
  let doy := (153 * mp + 2) / 5 + d - 1
  let doe := yoe * 365 + yoe / 4 - yoe / 100 + doy
  era * 146097 + (doe : Int)

/-- Gregorian leap-year test. -/
def isLeap (y : Int) : Bool :=
  y % 4 = 0 ∧ (y % 100 ≠ 0 ∨ y % 400 = 0)

/-- Days in a month. -/
def daysInMonth (y : Int) (m : Nat) : Nat :=
  if m = 2 then (if isLeap y then 29 else 28)
  else if m = 4 ∨ m = 6 ∨ m = 9 ∨ m = 11 then 30
  else 31

/-- Read exactly `n` decimal digits. -/
def takeDigits (n : Nat) (cs : List Char) : Option (Nat × List Char) :=
  let ds := cs.take n
  if ds.length = n ∧ ds.all Char.isDigit then some (natOfDigits ds, cs.drop n)
  else Option.none

/-- The optional `[:MM[:SS]]` tail of an ISO time. -/
def parseMinSec (cs : List Char) : Option (Nat × Nat) :=
  match cs with
  | [] => some (0, 0)
  | ':' :: r =>
    match takeDigits 2 r with
    | some (mi, r2) =>
      if mi ≤ 59 then
        match r2 with
        | [] => some (mi, 0)
        | ':' :: r3 =>
          match takeDigits 2 r3 with
          | some (ss, r4) => if ss ≤ 59 ∧ r4 = [] then some (mi, ss) else Option.none
          | Option.none => Option.none
        | _ => Option.none
      else Option.none
    | Option.none => Option.none
  | _ => Option.none

/-- `datetime.fromisoformat` on the naive date/datetime subset:
`Option.none` models `ValueError`. -/
def pyFromIso (s : String) : Option PyDateTime := do
  let cs := s.data
  let (y, r1) ← takeDigits 4 cs
  let r2 ← if r1.head? = some '-' then pure r1.tail else Option.none
  let (mo, r3) ← takeDigits 2 r2
  let r4 ← if r3.head? = some '-' then pure r3.tail else Option.none
  let (d, r5) ← takeDigits 2 r4
  if 1 ≤ y ∧ 1 ≤ mo ∧ mo ≤ 12 ∧ 1 ≤ d ∧ d ≤ daysInMonth y mo then
    match r5 with
    | [] => some ⟨daysFromCivil y mo d, 0⟩
    | _sep :: r6 =>
      match takeDigits 2 r6 with
      | some (hh, r7) =>
        if hh ≤ 23 then
          match parseMinSec r7 with
          | some (mi, ss) => some ⟨daysFromCivil y mo d, hh * 3600 + mi * 60 + ss⟩
          | Option.none => Option.none
        else Option.none
      | Option.none => Option.none
  else Option.none

/-- Match of `AIRBNB_ROOM_ID_PATTERN`
(`^https://www\.airbnb\.com(?:\.sg)?/rooms/(\d+)`): the captured room id.
(The sole backtracking case — `.sg` present but not followed by
`/rooms/` — cannot rescue the match, since nothing starting with `.sg`
also starts with `/rooms/`.) -/
def matchRoomId (link : String) : Option Nat :=
  let cs := link.data
  let host := "https://www.airbnb.com".data
  if host.isPrefixOf cs then
    let r := cs.drop host.length
    let r2 := if ".sg".data.isPrefixOf r then r.drop 3 else r
    if "/rooms/".data.isPrefixOf r2 then
      let ds := (r2.drop 7).takeWhile Char.isDigit
      if !ds.isEmpty then some (natOfDigits ds) else Option.none
    else Option.none
  else Option.none

/-- `re.search(name ++ "=(\d+)", link)`: the first occurrence of the
literal pattern followed by at least one digit; the maximal digit run. -/
def searchParamDigits (pat : List Char) : List Char → Option Nat
  | [] => Option.none
  | c :: cs =>
    if pat.isPrefixOf (c :: cs) then
      let ds := ((c :: cs).drop pat.length).takeWhile Char.isDigit
      if !ds.isEmpty then some (natOfDigits ds) else searchParamDigits pat cs
    else searchParamDigits pat cs

/-- `re.search(name ++ "=([^&]+)", link)`: the first occurrence of the
literal pattern followed by at least one non-`&` character; the maximal
such run. -/
def searchParamValue (pat : List Char) : List Char → Option (List Char)
  | [] => Option.none
  | c :: cs =>
    if pat.isPrefixOf (c :: cs) then
      let v := ((c :: cs).drop pat.length).takeWhile (fun x => x ≠ '&')
      if !v.isEmpty then some v else searchParamValue pat cs
    else searchParamValue pat cs

/-- Total seconds of a datetime (for comparison and subtraction). -/
def dtSeconds (dt : PyDateTime) : Int := dt.ord * 86400 + dt.sec

/-- `extract_from_url` (url_utils.py lines 17-84): room id, stay duration
in whole days (`timedelta.days`, i.e. floor of the second difference over
86400), check-in/check-out strings and adults count.  `Except.error`
carries the `ValueError` message. -/
def extract_from_url (link : String) :
    Except String (Int × Int × String × String × Int) := do
  let listing_id : Int ←
    match matchRoomId link with
    | some n => pure (n : Int)
    | Option.none => throw "Invalid Airbnb URL format - room ID not found"
  let adults_count : Int :=
    match searchParamDigits "adults=".data link.data with
    | some n => (n : Int)
    | Option.none => 1
  let check_in_str ←
    match searchParamValue "check_in=".data link.data with
    | some v => pure (String.mk v)
    | Option.none => throw "Invalid Airbnb URL format - check_in parameter not found"
  let check_out_str ←
    match searchParamValue "check_out=".data link.data with
    | some v => pure (String.mk v)
    | Option.none => throw "Invalid Airbnb URL format - check_out parameter not found"
  let check_in ←
    match pyFromIso check_in_str with
    | some dt => pure dt
    | Option.none => throw "Invalid date format in URL"
  let check_out ←
    match pyFromIso check_out_str with
    | some dt => pure dt
    | Option.none => throw "Invalid date format in URL"
  if dtSeconds check_out ≤ dtSeconds check_in then
    throw "Check-out date must be after check-in date"
  let stay_duration := (dtSeconds check_out - dtSeconds check_in).fdiv 86400
  return (listing_id, stay_duration, check_in_str, check_out_str, adults_count)

/-! ### JSON parsing (`json.loads`)

A recursive-descent parser with a fuel parameter (any fuel at least the
input length suffices).  The grammar is the JSON subset `json.dumps`
emits: exponent-free numbers, `\uXXXX` escapes with surrogate pairs
(Python's tolerance of lone surrogates is not representable in Lean
strings and is mapped to a parse failure), objects with last-wins
duplicate keys, `[]{}`-nesting, and the four JSON whitespace characters. -/

/-- JSON whitespace. -/
def jsonWs (c : Char) : Bool := c = ' ' || c = '\t' || c = '\n' || c = '\x0d'

/-- Skip JSON whitespace. -/
def skipWs (cs : List Char) : List Char := cs.dropWhile jsonWs

/-- Hexadecimal digit value. -/
def hexVal (c : Char) : Option Nat :=
  if '0' ≤ c ∧ c ≤ '9' then some (c.toNat - 48)
  else if 'a' ≤ c ∧ c ≤ 'f' then some (c.toNat - 87)
  else if 'A' ≤ c ∧ c ≤ 'F' then some (c.toNat - 55)
  else Option.none

/-- Value of four hexadecimal digit characters. -/
def hex4val (a b c d : Char) : Option Nat := do
  let va ← hexVal a
  let vb ← hexVal b
  let vc ← hexVal c
  let vd ← hexVal d
  pure (va * 4096 + vb * 256 + vc * 16 + vd)

/-- Single-character JSON escapes. -/
def escDecode (e : Char) : Option Char :=
  if e = '"' then some '"'
  else if e = '\\' then some '\\'
  else if e = '/' then some '/'
  else if e = 'n' then some '\n'
  else if e = 't' then some '\t'
  else if e = 'r' then some '\x0d'
  else if e = 'b' then some '\x08'
  else if e = 'f' then some '\x0c'
  else Option.none

/-- Decode one escape sequence (after the backslash): the decoded
character and the remaining input.  A `\uXXXX` in the high-surrogate
range must be followed by a low surrogate (Python's tolerance for lone
surrogates produces strings not representable in Lean and is mapped to a
parse failure). -/
def parseEsc : List Char → Option (Char × List Char)
  | [] => Option.none
  | e :: rest2 =>
    if e = 'u' then
      match rest2 with
      | a :: b :: c3 :: d :: rest3 =>
        match hex4val a b c3 d with
        | some n =>
          if 55296 ≤ n ∧ n ≤ 56319 then
            match rest3 with
            | s1 :: s2 :: a2 :: b2 :: c2 :: d2 :: rest4 =>
              if s1 = '\\' ∧ s2 = 'u' then
                match hex4val a2 b2 c2 d2 with
                | some n2 =>
                  if 56320 ≤ n2 ∧ n2 ≤ 57343 then
                    some (Char.ofNat (65536 + (n - 55296) * 1024 + (n2 - 56320)), rest4)
                  else Option.none
                | Option.none => Option.none
              else Option.none
            | _ => Option.none
          else if 56320 ≤ n ∧ n ≤ 57343 then Option.none
          else some (Char.ofNat n, rest3)
        | Option.none => Option.none
      | _ => Option.none
    else
      match escDecode e with
      | some ch => some (ch, rest2)
      | Option.none => Option.none

/-- Parse a JSON string body (after the opening quote) up to the closing
quote; returns the decoded characters and the remaining input.  Fuel of
at least the number of decoded characters plus one suffices. -/
def parseStrBody : Nat → List Char → Option (List Char × List Char)
  | 0, _ => Option.none
  | fuel + 1, cs =>
    match cs with
    | [] => Option.none
    | c :: rest =>
      if c = '"' then some ([], rest)
      else if c = '\\' then
        match parseEsc rest with
        | some cr => (parseStrBody fuel cr.2).map fun sr => (cr.1 :: sr.1, sr.2)
        | Option.none => Option.none
      else if 32 ≤ c.toNat then (parseStrBody fuel rest).map fun sr => (c :: sr.1, sr.2)
      else Option.none

/-- Match a literal keyword tail, returning the remaining input. -/
def matchLit : List Char → List Char → Option (List Char)
  | [], cs => some cs
  | _ :: _, [] => Option.none
  | l :: ls, c :: cs => if c = l then matchLit ls cs else Option.none

/-- Parse a JSON number (optional minus, digits, optional fraction);
exponents, which `json.dumps` never emits here, are not modelled. -/
def parseNumber (cs : List Char) : Option (PyVal × List Char) :=
  let neg : Bool := cs.head? = some '-'
  let r := if neg then cs.tail else cs
  let sgn : Int := if neg then -1 else 1
  let ip := r.takeWhile Char.isDigit
  let r1 := r.dropWhile Char.isDigit
  if ip.isEmpty then Option.none
  else if r1.head? = some '.' then
    let r2 := r1.tail
    let fp := r2.takeWhile Char.isDigit
    if fp.isEmpty then Option.none
    else some (.float (sgn * (natOfDigits (ip ++ fp) : Int)) fp.length, r2.dropWhile Char.isDigit)
  else some (.int (sgn * (natOfDigits ip : Int)), r1)

mutual

/-- Parse one JSON value (fuel-bounded). -/
def parseVal : Nat → List Char → Option (PyVal × List Char)
  | 0, _ => Option.none
  | fuel + 1, cs =>
    match skipWs cs with
    | [] => Option.none
    | c :: rest =>
      if c = '"' then
        (parseStrBody (rest.length + 1) rest).map fun sr => (.str (String.mk sr.1), sr.2)
      else if c = lbraceChar then
        match skipWs rest with
        | [] => Option.none
        | c2 :: rest2 =>
          if c2 = rbraceChar then some (.dict [], rest2)
          else parseMembers fuel (c2 :: rest2) []
      else if c = '[' then
        match skipWs rest with
        | [] => Option.none
        | c2 :: rest2 =>
          if c2 = ']' then some (.list [], rest2)
          else parseElems fuel (c2 :: rest2) []
      else if c = 't' then
        match matchLit ['r', 'u', 'e'] rest with
        | some r => some (.bool true, r)
        | Option.none => Option.none
      else if c = 'f' then
        match matchLit ['a', 'l', 's', 'e'] rest with
        | some r => some (.bool false, r)
        | Option.none => Option.none
      else if c = 'n' then
        match matchLit ['u', 'l', 'l'] rest with
        | some r => some (.none, r)
        | Option.none => Option.none
      else parseNumber (c :: rest)

/-- Parse the elements of a non-empty JSON array, after `[`. -/
def parseElems : Nat → List Char → List PyVal → Option (PyVal × List Char)
  | 0, _, _ => Option.none
  | fuel + 1, cs, acc =>
    match parseVal fuel cs with
    | some vr =>
      match skipWs vr.2 with
      | [] => Option.none
      | c :: r2 =>
        if c = ',' then parseElems fuel r2 (acc ++ [vr.1])
        else if c = ']' then some (.list (acc ++ [vr.1]), r2)
        else Option.none
    | Option.none => Option.none

/-- Parse the members of a non-empty JSON object, after the opening
brace (duplicate keys resolve last-wins, as in Python). -/
def parseMembers : Nat → List Char → PyDict → Option (PyVal × List Char)
  | 0, _, _ => Option.none
  | fuel + 1, cs, acc =>
    match skipWs cs with
    | [] => Option.none
    | c0 :: r =>
      if c0 = '"' then
        match parseStrBody (r.length + 1) r with
        | some kr =>
          match skipWs kr.2 with
          | [] => Option.none
          | c1 :: r2 =>
            if c1 = ':' then
              match parseVal fuel r2 with
              | some vr =>
                let acc' := dictSet acc (String.mk kr.1) vr.1
                match skipWs vr.2 with
                | [] => Option.none
                | c :: r4 =>
                  if c = ',' then parseMembers fuel r4 acc'
                  else if c = rbraceChar then some (.dict acc', r4)
                  else Option.none
              | Option.none => Option.none
            else Option.none
        | Option.none => Option.none
      else Option.none

end

/-- `json.loads(s)`: parse one value, allowing trailing whitespace only. -/
def loads (s : String) : Option PyVal :=
  match parseVal (s.data.length + 1) s.data with
  | some vr => if skipWs vr.2 = [] then some vr.1 else Option.none
  | Option.none => Option.none

/-! ### Persistence store (src/backend/db_helpers.py)

The `main` table (`id INTEGER PRIMARY KEY, url TEXT, json TEXT NOT NULL`)
is modelled as a list of rows unique in `id`.  Binding a Python value to
a SQL parameter follows sqlite3: `None`, bools, ints, floats and strings
bind (the TEXT column stores the text affinity conversion of a numeric),
lists and dicts raise `InterfaceError`.  The `id` column is declared
`INTEGER PRIMARY KEY` (strictly typed); non-integer keys — which no
caller in the backend produces — are modelled as errors. -/

/-- One row of the `main` table. -/
structure DbRow where
  id : Int
  urlcol : Option String
  json : String
deriving DecidableEq, Repr

/-- The persistence store: rows of the `main` table. -/
abbrev Store := List DbRow

/-- Row lookup by primary key. -/
def findRow : Store → Int → Option DbRow
  | [], _ => Option.none
  | r :: rest, k => if r.id = k then some r else findRow rest k

/-- Bind a value to the TEXT `url` column. -/
def sqlTextBind (v : Option PyVal) : Except PyErr (Option String) :=
  match v with
  | Option.none => .ok Option.none
  | some .none => .ok Option.none
  | some (.str s) => .ok (some s)
  | some (.int n) => .ok (some (intRepr n))
  | some (.bool b) => .ok (some (if b then "1" else "0"))
  | some (.float m e) => .ok (some (floatRepr m e))
  | some (.list _) => .error .interfaceError
  | some (.dict _) => .error .interfaceError

/-- Bind a value to the `INTEGER PRIMARY KEY` column. -/
def sqlIntKey (v : PyVal) : Except PyErr Int :=
  match v with
  | .int n => .ok n
  | .bool b => .ok (if b then 1 else 0)
  | _ => .error .interfaceError

/-- `INSERT OR REPLACE`: any row with the same key is discarded and the
new row appended. -/
def upsertRow (st : Store) (r : DbRow) : Store :=
  (st.filter fun r' => r'.id ≠ r.id) ++ [r]

/-- `DatabaseManager.add_entry` (db_helpers.py lines 141-177): requires
an `id` field, serializes the whole record to one JSON blob, and upserts
by primary key.  On error the transaction is rolled back (the caller
keeps the unchanged store) and the error re-raised. -/
def add_entry (st : Store) (listing_data : PyDict) : Except PyErr Store := do
  if (dictGet listing_data "id").isNone then
    throw (.valueError "Listing data must contain 'id' field")
  let listing_id := (dictGet listing_data "id").getD .none
  let url := dictGet listing_data "url"
  let json_data := dumps (.dict listing_data)
  let key ← sqlIntKey listing_id
  let u ← sqlTextBind url
  return upsertRow st ⟨key, u, json_data⟩

/-- `DatabaseManager.get_listing` (db_helpers.py lines 179-209):
deserializes the stored blob; a corrupt blob raises `JSONDecodeError`. -/
def get_listing (st : Store) (listing_id : Int) : Except PyErr (Option PyVal) :=
  match findRow st listing_id with
  | some row =>
    match loads row.json with
    | some v => .ok (some v)
    | Option.none => .error .jsonDecodeError
  | Option.none => .ok Option.none

/-- `update_listing_costs` (src/backend/scraper.py lines 137-181):
fetches the stored record, sets its `cost` field to `new_cost`, and
re-adds it; returns whether the update happened, together with the
resulting store.  Any exception (absent handled separately) is caught and
yields `False` with the store rolled back. -/
def update_listing_costs (st : Store) (listing_id : Int) (new_cost : Int) : Bool × Store :=
  match get_listing st listing_id with
  | .error _ => (false, st)
  | .ok Option.none => (false, st)
  | .ok (some v) =>
    match v with
    | .dict d =>
      match add_entry st (dictSet d "cost" (.int new_cost)) with
      | .ok st' => (true, st')
      | .error _ => (false, st)
    | _ => (false, st)

/-! ### Field accessor (src/backend/data_retrieval.py, constants.py) -/

/-- Generic association-list lookup (for the label mapping). -/
def alistGet {α : Type} : List (String × α) → String → Option α
  | [], _ => Option.none
  | (k', v) :: rest, k => if k' = k then some v else alistGet rest k

/-- `CHECKBOX_FIELD_MAPPING` (src/backend/constants.py lines 15-36). -/
def CHECKBOX_FIELD_MAPPING : List (String × String) :=
  [("ID", "id"), ("Rating", "average_rating"), ("URL", "url"),
   ("Duration", "duration"), ("Location", "location"),
   ("Coordinates", "coordinates"), ("Getting Around", "getting_around"),
   ("Check In/ Out Timing", "check_in_out"), ("Layout", "layout"),
   ("Capacity", "capacity"), ("Cost", "cost"), ("Super Host", "super_host"),
   ("Amenities", "amenities"), ("Highlights", "highlights"),
   ("Reviews Summary", "reviews_summary"), ("House Rules", "house_rules"),
   ("Property Details", "property_details"), ("Notes", "notes"),
   ("Images", "images"), ("Cover", "cover")]

/-- Python `v[0]`: first element of a list (IndexError when empty),
first character of a string, `KeyError` for a dict (`0` is never a key of
a string-keyed dict), `TypeError` otherwise. -/
def pyFirstItem (v : PyVal) : Except PyErr PyVal :=
  match v with
  | .list (x :: _) => .ok x
  | .list [] => .error .indexError
  | .str s =>
    match s.data with
    | c :: _ => .ok (.str (String.mk [c]))
    | [] => .error .indexError
  | .dict _ => .error .keyError
  | _ => .error .typeError

/-- `extract_field_from_listing` (data_retrieval.py lines 77-102):
unknown labels raise `KeyError`; `cost` defaults to `0`; `cover` is
`listing["images"][0]` when `listing["images"]` is truthy (the subscript
raising `KeyError` when the key is absent) and `""` otherwise; every
other mapped field defaults to `""`. -/
def extract_field_from_listing (field_name : String) (listing : PyDict) : Except PyErr PyVal :=
  match alistGet CHECKBOX_FIELD_MAPPING field_name with
  | Option.none => .error .keyError
  | some field_key =>
    if field_key = "cost" then .ok (dictGetD listing "cost" (.int 0))
    else if field_key = "cover" then
      match dictGet listing "images" with
      | Option.none => .error .keyError
      | some imgs => if pyTruthy imgs then pyFirstItem imgs else .ok (.str "")
    else .ok (dictGetD listing field_key (.str ""))

/-- The continuation after a dumped number must not begin with a digit
or a decimal point (true of every separator `json.dumps` emits and of the
end of input). -/
def numStop (rest : List Char) : Prop :=
  ∀ c, rest.head? = some c → c.isDigit = false ∧ c ≠ '.'

mutual

/-- Fuel sufficient for `parseVal` on the dump of `v`. -/
def fuelNeeded : PyVal → Nat
  | .list xs => needElems xs + 1
  | .dict d => needMembers d + 1
  | _ => 1

/-- Fuel sufficient for `parseElems` on the dump of a list's elements. -/
def needElems : List PyVal → Nat
  | [] => 1
  | x :: xs => max (fuelNeeded x) (needElems xs) + 1

/-- Fuel sufficient for `parseMembers` on the dump of a dict's entries. -/
def needMembers : PyDict → Nat
  | [] => 1
  | kv :: ds => max (fuelNeeded kv.2) (needMembers ds) + 1

end

mutual

/-- Wellformedness of a Python value as Python itself guarantees it:
floats carry at least one fractional digit (Python float `repr` always
does) and dicts never hold duplicate keys. -/
def wfVal : PyVal → Bool
  | .float _ e => decide (1 ≤ e)
  | .list xs => wfElems xs
  | .dict d => decide ((d.map Prod.fst).Nodup) && wfEntries d
  | _ => true

/-- All elements wellformed. -/
def wfElems : List PyVal → Bool
  | [] => true
  | x :: xs => wfVal x && wfElems xs

/-- All entry values wellformed. -/
def wfEntries : PyDict → Bool
  | [] => true
  | kv :: ds => wfVal kv.2 && wfEntries ds

end

/-! ### Safe payload shapes (which malformed sub-structures the extractors absorb) -/

/-- Dict test. -/
def isDictVal : PyVal → Bool
  | .dict _ => true
  | _ => false

/-- String test. -/
def isStrVal : PyVal → Bool
  | .str _ => true
  | _ => false

/-- Falsy, or a dict: the shapes every per-element guard chain accepts
without raising. -/
def falsyOrDict (v : PyVal) : Bool := !pyTruthy v || isDictVal v

/-- A collection value whose traversal cannot raise: falsy, or a list
whose elements are falsy or dicts. -/
def safeItems (v : PyVal) : Bool :=
  !pyTruthy v ||
    (match v with
     | .list xs => xs.all falsyOrDict
     | _ => false)

/-- A review entry whose processing cannot raise: falsy, or a dict whose
`language` value (when present) is a string. -/
def safeReview (v : PyVal) : Bool :=
  !pyTruthy v ||
    (match v with
     | .dict rd => isStrVal (dictGetD rd "language" (.str ""))
     | _ => false)

/-- A reviews value whose traversal cannot raise. -/
def safeReviews (v : PyVal) : Bool :=
  !pyTruthy v ||
    (match v with
     | .list xs => xs.all safeReview
     | _ => false)

/-! ## Supporting lemmas -/

theorem digitChar_isDigit (d : Nat) : (digitChar d).isDigit = true := by
  unfold digitChar
  split <;> rfl

theorem digitChar_toNat (d : Nat) (h : d < 10) : (digitChar d).toNat - 48 = d := by
  interval_cases d <;> rfl

theorem natDigitsAux_all (fuel n : Nat) : ∀ c ∈ natDigitsAux fuel n, c.isDigit = true := by
  induction fuel generalizing n with
  | zero => simp [natDigitsAux]
  | succ f ih =>
    intro c hc
    rw [natDigitsAux] at hc
    by_cases h0 : n = 0
    · simp [h0] at hc
    · rw [if_neg h0] at hc
      rcases List.mem_cons.mp hc with h | h
      · subst h; exact digitChar_isDigit _
      · exact ih _ c h

theorem natOfDigits_aux (fuel : Nat) : ∀ n a, n ≤ fuel →
    ((natDigitsAux fuel n).reverse).foldl (fun a c => a * 10 + (c.toNat - 48)) a =
      a * 10 ^ (natDigitsAux fuel n).length + n := by
  induction fuel with
  | zero =>
    intro n a h
    interval_cases n
    simp [natDigitsAux]
  | succ f ih =>
    intro n a h
    by_cases h0 : n = 0
    · subst h0; simp [natDigitsAux]
    · rw [natDigitsAux]
      simp only [if_neg h0, List.reverse_cons, List.foldl_append, List.length_cons]
      have hlt : n / 10 < n := Nat.div_lt_self (Nat.pos_of_ne_zero h0) (by norm_num)
      rw [ih (n / 10) a (by omega)]
      simp only [List.foldl_cons, List.foldl_nil]
      rw [digitChar_toNat _ (Nat.mod_lt _ (by norm_num))]
      rw [pow_succ, ← mul_assoc]
      have hdm := Nat.div_add_mod n 10
      generalize a * 10 ^ (natDigitsAux f (n / 10)).length = Q
      omega

theorem natOfDigits_natDigits (n : Nat) : natOfDigits (natDigits n) = n := by
  by_cases h0 : n = 0
  · subst h0; rfl
  · unfold natDigits natOfDigits
    rw [if_neg h0, natOfDigits_aux n n 0 le_rfl]
    simp

theorem natDigits_all (n : Nat) : ∀ c ∈ natDigits n, c.isDigit = true := by
  unfold natDigits
  split
  · intro c hc; simp at hc; subst hc; rfl
  · intro c hc
    exact natDigitsAux_all n n c (List.mem_reverse.mp hc)

theorem natDigits_ne_nil (n : Nat) : natDigits n ≠ [] := by
  unfold natDigits
  split
  · simp
  · rename_i h0
    obtain ⟨m, rfl⟩ := Nat.exists_eq_succ_of_ne_zero h0
    simp [natDigitsAux]

theorem takeWhile_all_append {α : Type} {p : α → Bool} :
    ∀ (xs rest : List α), (∀ c ∈ xs, p c = true) →
      (∀ c, rest.head? = some c → p c = false) →
      (xs ++ rest).takeWhile p = xs ∧ (xs ++ rest).dropWhile p = rest := by
  intro xs rest hall hhd
  induction xs with
  | nil =>
    simp only [List.nil_append]
    cases rest with
    | nil => simp
    | cons c t =>
      have := hhd c rfl
      simp [List.takeWhile_cons, List.dropWhile_cons, this]
  | cons x xs ih =>
    have hx := hall x (by simp)
    have ih' := ih fun c hc => hall c (by simp [hc])
    simp [List.takeWhile_cons, List.dropWhile_cons, hx, ih'.1, ih'.2]


theorem foldl_replicate_zero (k : Nat) :
    (List.replicate k '0').foldl (fun a c => a * 10 + (c.toNat - 48)) 0 = 0 := by
  induction k with
  | zero => rfl
  | succ m ih => simpa [List.replicate_succ] using ih

theorem natOfDigits_replicate_zero (k : Nat) (ds : List Char) :
    natOfDigits (List.replicate k '0' ++ ds) = natOfDigits ds := by
  unfold natOfDigits
  rw [List.foldl_append, foldl_replicate_zero]

theorem digits_head_not_minus (tp rest : List Char) (htp : tp ≠ [])
    (hall : ∀ c ∈ tp, c.isDigit = true) :
    ((tp ++ rest).head? = some '-') = False := by
  obtain ⟨d, ds, hds⟩ := List.exists_cons_of_ne_nil htp
  have hd : d.isDigit = true := hall d (by rw [hds]; simp)
  simp only [hds, List.cons_append, List.head?_cons, Option.some.injEq, eq_iff_iff,
    iff_false]
  intro h
  subst h
  simp [Char.isDigit] at hd

theorem natDigits_head_not_minus (n : Nat) (rest : List Char) :
    ((natDigits n ++ rest).head? = some '-') = False :=
  digits_head_not_minus _ _ (natDigits_ne_nil n) (natDigits_all n)

theorem parseNumber_natDigits (a : Nat) (rest : List Char) (h : numStop rest) :
    (natDigits a ++ rest).takeWhile Char.isDigit = natDigits a ∧
      (natDigits a ++ rest).dropWhile Char.isDigit = rest :=
  takeWhile_all_append _ _ (natDigits_all a)
    (fun c hc => (h c hc).1)

theorem parseNumber_intRepr (n : Int) (rest : List Char) (h : numStop rest) :
    parseNumber ((intRepr n).data ++ rest) = some (.int n, rest) := by
  have hstop : ∀ c, rest.head? = some c → Char.isDigit c = false := fun c hc => (h c hc).1
  have hdispatch := parseNumber_natDigits n.natAbs rest h
  have hno : ((natDigits n.natAbs ++ rest).head? = some '-') = False :=
    natDigits_head_not_minus _ _
  have hval := natOfDigits_natDigits n.natAbs
  have hnonnil := natDigits_ne_nil n.natAbs
  have hdot : (rest.head? = some '.') = False := by
    simp only [eq_iff_iff, iff_false]
    intro hc
    exact (h _ hc).2 rfl
  unfold intRepr
  split
  · rename_i hneg
    simp only [parseNumber, List.cons_append, List.head?_cons, Option.some.injEq,
      decide_True, decide_False, if_true, if_false, List.tail_cons, eq_self_iff_true]
    rw [hdispatch.1, hdispatch.2]
    rw [if_neg (by simpa [List.isEmpty_iff] using hnonnil)]
    rw [if_neg (by simp [hdot])]
    simp only [Option.some.injEq, Prod.mk.injEq, PyVal.int.injEq, and_true]
    rw [hval]; omega
  · rename_i hneg
    simp only [parseNumber]
    have hb : (decide ((natDigits n.natAbs ++ rest).head? = some '-')) = false := by
      rw [decide_eq_false_iff_not, hno]
      exact not_false
    simp only [hb, Bool.false_eq_true, if_false]
    rw [hdispatch.1, hdispatch.2]
    rw [if_neg (by simpa [List.isEmpty_iff] using hnonnil)]
    rw [if_neg (by simp [hdot])]
    simp only [Option.some.injEq, Prod.mk.injEq, PyVal.int.injEq, and_true]
    rw [hval]; omega

theorem floatDigits_parts (a e : Nat) (he : 1 ≤ e) :
    ∃ tp dp, floatDigits a e = tp ++ '.' :: dp ∧ tp ≠ [] ∧ dp.length = e ∧
      (∀ c ∈ tp, c.isDigit = true) ∧ (∀ c ∈ dp, c.isDigit = true) ∧
      natOfDigits (tp ++ dp) = a := by
  unfold floatDigits
  set ds1 := natDigits a with hds1
  set ds := List.replicate (e + 1 - ds1.length) '0' ++ ds1 with hds
  have hlen1 : 1 ≤ ds1.length := List.length_pos.mpr (natDigits_ne_nil a)
  have hlen : e + 1 ≤ ds.length := by
    rw [hds, List.length_append, List.length_replicate]
    omega
  have hall : ∀ c ∈ ds, c.isDigit = true := by
    intro c hc
    rcases List.mem_append.mp hc with hm | hm
    · rw [List.eq_of_mem_replicate hm]; rfl
    · exact natDigits_all a c hm
  refine ⟨ds.take (ds.length - e), ds.drop (ds.length - e), rfl, ?_, ?_, ?_, ?_, ?_⟩
  · have hl : (ds.take (ds.length - e)).length = ds.length - e := by
      rw [List.length_take]; omega
    intro hnil
    rw [hnil] at hl
    simp at hl
    omega
  · rw [List.length_drop]; omega
  · intro c hc; exact hall c (List.mem_of_mem_take hc)
  · intro c hc; exact hall c (List.mem_of_mem_drop hc)
  · rw [List.take_append_drop, hds, natOfDigits_replicate_zero, hds1]
    exact natOfDigits_natDigits a

theorem parseNumber_floatRepr (m : Int) (e : Nat) (he : 1 ≤ e) (rest : List Char)
    (h : numStop rest) :
    parseNumber ((floatRepr m e).data ++ rest) = some (.float m e, rest) := by
  obtain ⟨tp, dp, hsplit, htp, hdpl, htpd, hdpd, hval⟩ := floatDigits_parts m.natAbs e he
  have hdpne : dp ≠ [] := by
    intro hnil; rw [hnil] at hdpl; simp at hdpl; omega
  have hdot : Char.isDigit '.' = false := rfl
  have step1 : ∀ X, (tp ++ '.' :: X).takeWhile Char.isDigit = tp ∧
      (tp ++ '.' :: X).dropWhile Char.isDigit = '.' :: X := by
    intro X
    exact takeWhile_all_append tp ('.' :: X) htpd
      (fun c hc => by simp at hc; rw [← hc]; rfl)
  have step2 : (dp ++ rest).takeWhile Char.isDigit = dp ∧
      (dp ++ rest).dropWhile Char.isDigit = rest :=
    takeWhile_all_append dp rest hdpd (fun c hc => (h c hc).1)
  have htpe : (tp.isEmpty = true) = False := by
    simp [List.isEmpty_iff, htp]
  have hdpe : (dp.isEmpty = true) = False := by
    simp [List.isEmpty_iff, hdpne]
  unfold floatRepr
  split
  · rename_i hneg
    simp only [hsplit, parseNumber, List.cons_append, List.head?_cons, Option.some.injEq,
      decide_True, decide_False, if_true, if_false, List.tail_cons, eq_self_iff_true]
    rw [List.append_assoc, List.cons_append]
    rw [(step1 (dp ++ rest)).1, (step1 (dp ++ rest)).2]
    rw [if_neg (by simp [List.isEmpty_iff, htp])]
    rw [if_pos (by simp)]
    simp only [List.tail_cons]
    rw [step2.1, step2.2]
    rw [if_neg (by simp [List.isEmpty_iff, hdpne])]
    simp only [Option.some.injEq, Prod.mk.injEq, PyVal.float.injEq, and_true]
    refine ⟨?_, hdpl⟩
    rw [hval]; omega
  · rename_i hneg
    simp only [hsplit, parseNumber]
    rw [List.append_assoc, List.cons_append]
    have hb : (decide ((tp ++ '.' :: (dp ++ rest)).head? = some '-')) = false := by
      rw [decide_eq_false_iff_not, digits_head_not_minus tp _ htp htpd]
      exact not_false
    simp only [hb, Bool.false_eq_true, if_false]
    rw [(step1 (dp ++ rest)).1, (step1 (dp ++ rest)).2]
    rw [if_neg (by simp [List.isEmpty_iff, htp])]
    rw [if_pos (by simp)]
    simp only [List.tail_cons]
    rw [step2.1, step2.2]
    rw [if_neg (by simp [List.isEmpty_iff, hdpne])]
    simp only [Option.some.injEq, Prod.mk.injEq, PyVal.float.injEq, and_true]
    refine ⟨?_, hdpl⟩
    rw [hval]; omega

theorem hexVal_hexDigitChar (d : Nat) (h : d < 16) : hexVal (hexDigitChar d) = some d := by
  interval_cases d <;> rfl

theorem hex4val_hex4 (n : Nat) (h : n < 65536) :
    hex4val (hexDigitChar (n / 4096 % 16)) (hexDigitChar (n / 256 % 16))
      (hexDigitChar (n / 16 % 16)) (hexDigitChar (n % 16)) = some n := by
  unfold hex4val
  rw [hexVal_hexDigitChar _ (Nat.mod_lt _ (by norm_num)),
      hexVal_hexDigitChar _ (Nat.mod_lt _ (by norm_num)),
      hexVal_hexDigitChar _ (Nat.mod_lt _ (by norm_num)),
      hexVal_hexDigitChar _ (Nat.mod_lt _ (by norm_num))]
  simp only [Option.bind_eq_bind, Option.some_bind, Option.pure_def, Option.some.injEq]
  omega

theorem char_valid_ranges (c : Char) :
    c.toNat < 55296 ∨ (57343 < c.toNat ∧ c.toNat < 1114112) := by
  have h := c.valid
  unfold UInt32.isValidChar Nat.isValidChar at h
  unfold Char.toNat
  rcases h with h | ⟨h1, h2⟩
  · left; exact h
  · right; exact ⟨h1, h2⟩

theorem parseEsc_twochar (e ch : Char) (cs : List Char) (he : ¬ e = 'u')
    (hd : escDecode e = some ch) :
    parseEsc (e :: cs) = some (ch, cs) := by
  rw [parseEsc.eq_def]
  simp only []
  rw [if_neg he, hd]

theorem parseEsc_u (a b c3 d : Char) (n : Nat) (cs : List Char)
    (hh : hex4val a b c3 d = some n)
    (hs1 : ¬ (55296 ≤ n ∧ n ≤ 56319)) (hs2 : ¬ (56320 ≤ n ∧ n ≤ 57343)) :
    parseEsc ('u' :: a :: b :: c3 :: d :: cs) = some (Char.ofNat n, cs) := by
  rw [parseEsc.eq_def]
  simp only [if_true]
  rw [hh]
  dsimp only
  rw [if_neg hs1, if_neg hs2]

theorem parseEsc_surrogate (a b c3 d a2 b2 c2 d2 : Char) (n n2 : Nat)
    (cs : List Char) (hh : hex4val a b c3 d = some n)
    (hh2 : hex4val a2 b2 c2 d2 = some n2)
    (hs1 : 55296 ≤ n ∧ n ≤ 56319) (hs2 : 56320 ≤ n2 ∧ n2 ≤ 57343) :
    parseEsc ('u' :: a :: b :: c3 :: d :: '\\' :: 'u' :: a2 :: b2 :: c2 :: d2 :: cs) =
      some (Char.ofNat (65536 + (n - 55296) * 1024 + (n2 - 56320)), cs) := by
  rw [parseEsc.eq_def]
  simp only [if_true]
  rw [hh]
  dsimp only
  rw [if_pos hs1]
  rw [if_pos (by constructor <;> trivial), hh2]
  dsimp only
  rw [if_pos hs2]

theorem parseStrBody_succ_quote (fuel : Nat) (rest : List Char) :
    parseStrBody (fuel + 1) ('"' :: rest) = some ([], rest) := by
  rw [parseStrBody.eq_def]
  dsimp only
  rw [if_pos rfl]

theorem parseStrBody_succ_esc (fuel : Nat) (cs : List Char) (c : Char) (tl : List Char)
    (hesc : parseEsc cs = some (c, tl)) :
    parseStrBody (fuel + 1) ('\\' :: cs) =
      (parseStrBody fuel tl).map fun sr => (c :: sr.1, sr.2) := by
  rw [parseStrBody.eq_def]
  simp only [if_true]
  rw [hesc]
  rw [if_neg (by decide)]

theorem parseStrBody_succ_raw (fuel : Nat) (c : Char) (cs : List Char) (h1 : ¬ c = '"')
    (h2 : ¬ c = '\\') (h3 : 32 ≤ c.toNat) :
    parseStrBody (fuel + 1) (c :: cs) =
      (parseStrBody fuel cs).map fun sr => (c :: sr.1, sr.2) := by
  rw [parseStrBody.eq_def]
  simp only []
  rw [if_neg h1, if_neg h2, if_pos h3]

theorem parseStrBody_escapeChar (c : Char) (cs : List Char) (fuel : Nat) :
    parseStrBody (fuel + 1) (escapeChar c ++ cs) =
      (parseStrBody fuel cs).map fun sr => (c :: sr.1, sr.2) := by
  have hvalid := char_valid_ranges c
  unfold escapeChar
  split_ifs with h1 h2 h3 h4 h5 h6 h7 h8 h9
  · subst h1
    exact parseStrBody_succ_esc _ _ _ _ (parseEsc_twochar _ _ _ (by decide) (by decide))
  · subst h2
    exact parseStrBody_succ_esc _ _ _ _ (parseEsc_twochar _ _ _ (by decide) (by decide))
  · subst h3
    exact parseStrBody_succ_esc _ _ _ _ (parseEsc_twochar _ _ _ (by decide) (by decide))
  · subst h4
    exact parseStrBody_succ_esc _ _ _ _ (parseEsc_twochar _ _ _ (by decide) (by decide))
  · subst h5
    exact parseStrBody_succ_esc _ _ _ _ (parseEsc_twochar _ _ _ (by decide) (by decide))
  · subst h6
    exact parseStrBody_succ_esc _ _ _ _ (parseEsc_twochar _ _ _ (by decide) (by decide))
  · subst h7
    exact parseStrBody_succ_esc _ _ _ _ (parseEsc_twochar _ _ _ (by decide) (by decide))
  · exact parseStrBody_succ_raw fuel c cs h1 h2 h8.1
  · have hn : c.toNat < 65536 := h9
    simp only [hex4, List.cons_append, List.nil_append]
    rw [parseStrBody_succ_esc _ _ _ _
      (parseEsc_u _ _ _ _ c.toNat cs (hex4val_hex4 c.toNat hn) (by omega) (by omega))]
    rw [Char.ofNat_toNat]
  · have hn : 65536 ≤ c.toNat := by omega
    have hcap : c.toNat < 1114112 := by omega
    simp only [hex4, List.cons_append, List.nil_append, List.append_assoc]
    rw [parseStrBody_succ_esc _ _ _ _
      (parseEsc_surrogate _ _ _ _ _ _ _ _
        (55296 + (c.toNat - 65536) / 1024) (56320 + (c.toNat - 65536) % 1024) cs
        (hex4val_hex4 _ (by omega)) (hex4val_hex4 _ (by omega))
        (by omega) (by omega))]
    have hcomb : 65536 + (55296 + (c.toNat - 65536) / 1024 - 55296) * 1024 +
        (56320 + (c.toNat - 65536) % 1024 - 56320) = c.toNat := by omega
    rw [hcomb, Char.ofNat_toNat]

theorem parseStrBody_encode (s : List Char) : ∀ (rest : List Char) (fuel : Nat),
    s.length ≤ fuel →
    parseStrBody (fuel + 1) (s.flatMap escapeChar ++ '"' :: rest) = some (s, rest) := by
  induction s with
  | nil =>
    intro rest fuel _
    simpa using parseStrBody_succ_quote fuel rest
  | cons c t ih =>
    intro rest fuel hf
    simp only [List.length_cons] at hf
    obtain ⟨f, rfl⟩ : ∃ f, fuel = f + 1 := ⟨fuel - 1, by omega⟩
    rw [List.flatMap_cons, List.append_assoc, parseStrBody_escapeChar,
      ih rest f (by omega)]
    rfl


theorem matchLit_self : ∀ (lit rest : List Char), matchLit lit (lit ++ rest) = some rest
  | [], _ => rfl
  | l :: ls, rest => by
    show matchLit (l :: ls) (l :: (ls ++ rest)) = some rest
    rw [matchLit.eq_def]
    simp only [if_pos rfl, ite_true]
    exact matchLit_self ls rest

theorem char_ne_of_toNat_ne {c d : Char} (h : c.toNat ≠ d.toNat) : ¬ c = d :=
  fun hc => h (by rw [hc])

theorem isDigit_toNat {c : Char} (h : c.isDigit = true) :
    48 ≤ c.toNat ∧ c.toNat ≤ 57 := by
  simp only [Char.isDigit, decide_eq_true_eq, Bool.and_eq_true, decide_eq_true_iff] at h
  obtain ⟨h1, h2⟩ := h
  exact ⟨h1, h2⟩

theorem skipWs_cons_nonws {c : Char} (t : List Char) (h : jsonWs c = false) :
    skipWs (c :: t) = c :: t := by
  simp [skipWs, List.dropWhile_cons, h]

theorem skipWs_ws_append (w : List Char) (hw : ∀ c ∈ w, jsonWs c = true) :
    ∀ t, skipWs (w ++ t) = skipWs t := by
  induction w with
  | nil => intro t; rfl
  | cons c cs ih =>
    intro t
    have hc := hw c (by simp)
    simp only [List.cons_append, skipWs, List.dropWhile_cons, hc, if_true, ite_true]
    exact ih (fun c hc => hw c (by simp [hc])) t

/-- The facts needed to route a numeric head through `parseVal`'s
dispatcher: a digit or minus sign is not whitespace and not any of the
structural lead characters. -/
theorem numeric_head_facts {c : Char} (h : c.isDigit = true ∨ c = '-') :
    jsonWs c = false ∧ ¬ c = '"' ∧ ¬ c = lbraceChar ∧ ¬ c = '[' ∧
      ¬ c = 't' ∧ ¬ c = 'f' ∧ ¬ c = 'n' := by
  have hb : 48 ≤ c.toNat ∧ c.toNat ≤ 57 ∨ c.toNat = 45 := by
    rcases h with h | h
    · exact Or.inl (isDigit_toNat h)
    · right; rw [h]; rfl
  have hsp : (' ' : Char).toNat = 32 := rfl
  have htab : ('\t' : Char).toNat = 9 := rfl
  have hnl : ('\n' : Char).toNat = 10 := rfl
  have hcr : ('\x0d' : Char).toNat = 13 := rfl
  have hq : ('"' : Char).toNat = 34 := rfl
  have hlb : lbraceChar.toNat = 123 := rfl
  have hbr : ('[' : Char).toNat = 91 := rfl
  have ht : ('t' : Char).toNat = 116 := rfl
  have hf : ('f' : Char).toNat = 102 := rfl
  have hn : ('n' : Char).toNat = 110 := rfl
  refine ⟨?_, ?_, ?_, ?_, ?_, ?_, ?_⟩
  · simp only [jsonWs, Bool.or_eq_false_iff, decide_eq_false_iff_not]
    refine ⟨⟨⟨?_, ?_⟩, ?_⟩, ?_⟩ <;> (apply char_ne_of_toNat_ne; omega)
  · apply char_ne_of_toNat_ne; omega
  · apply char_ne_of_toNat_ne; omega
  · apply char_ne_of_toNat_ne; omega
  · apply char_ne_of_toNat_ne; omega
  · apply char_ne_of_toNat_ne; omega
  · apply char_ne_of_toNat_ne; omega


theorem one_le_fuelNeeded (v : PyVal) : 1 ≤ fuelNeeded v := by
  cases v <;> (rw [fuelNeeded.eq_def]; try (dsimp only; omega))

theorem one_le_needElems (xs : List PyVal) : 1 ≤ needElems xs := by
  cases xs <;> (rw [needElems.eq_def]; try (dsimp only; omega))

theorem one_le_needMembers (d : PyDict) : 1 ≤ needMembers d := by
  cases d <;> (rw [needMembers.eq_def]; try (dsimp only; omega))

theorem dumpVal_none : dumpVal .none = ['n', 'u', 'l', 'l'] := by
  rw [dumpVal.eq_def]

theorem dumpVal_bool (b : Bool) :
    dumpVal (.bool b) = if b then ['t', 'r', 'u', 'e'] else ['f', 'a', 'l', 's', 'e'] := by
  rw [dumpVal.eq_def]

theorem dumpVal_int (n : Int) : dumpVal (.int n) = (intRepr n).data := by
  rw [dumpVal.eq_def]

theorem dumpVal_float (m : Int) (e : Nat) : dumpVal (.float m e) = (floatRepr m e).data := by
  rw [dumpVal.eq_def]

theorem dumpVal_str (s : String) : dumpVal (.str s) = encodeStr s := by
  rw [dumpVal.eq_def]

theorem dumpVal_list (xs : List PyVal) : dumpVal (.list xs) = '[' :: dumpElems xs ++ [']'] := by
  rw [dumpVal.eq_def]

theorem dumpVal_dict (d : PyDict) :
    dumpVal (.dict d) = lbraceChar :: dumpEntries d ++ [rbraceChar] := by
  rw [dumpVal.eq_def]

theorem dumpElems_nil : dumpElems [] = [] := by
  rw [dumpElems.eq_def]

theorem dumpElems_single (x : PyVal) : dumpElems [x] = dumpVal x := by
  rw [dumpElems.eq_def]

theorem dumpElems_cons2 (x y : PyVal) (rest : List PyVal) :
    dumpElems (x :: y :: rest) = dumpVal x ++ ',' :: ' ' :: dumpElems (y :: rest) := by
  rw [dumpElems.eq_def]

theorem dumpEntries_nil : dumpEntries [] = [] := by
  rw [dumpEntries.eq_def]

theorem dumpEntries_single (k : String) (v : PyVal) :
    dumpEntries [(k, v)] = encodeStr k ++ ':' :: ' ' :: dumpVal v := by
  rw [dumpEntries.eq_def]

theorem dumpEntries_cons2 (k : String) (v : PyVal) (e : String × PyVal) (rest : PyDict) :
    dumpEntries ((k, v) :: e :: rest) =
      encodeStr k ++ ':' :: ' ' :: dumpVal v ++ ',' :: ' ' :: dumpEntries (e :: rest) := by
  rw [dumpEntries.eq_def]

/-- A digit head is not whitespace and not a JSON closer. -/
theorem digit_head_facts {c : Char} (h : c.isDigit = true ∨ c = '-') :
    jsonWs c = false ∧ ¬ c = ']' ∧ ¬ c = rbraceChar := by
  have hb : 48 ≤ c.toNat ∧ c.toNat ≤ 57 ∨ c.toNat = 45 := by
    rcases h with h | h
    · exact Or.inl (isDigit_toNat h)
    · right; rw [h]; rfl
  have hsp : (' ' : Char).toNat = 32 := rfl
  have htab : ('\t' : Char).toNat = 9 := rfl
  have hnl : ('\n' : Char).toNat = 10 := rfl
  have hcr : ('\x0d' : Char).toNat = 13 := rfl
  have hcl : (']' : Char).toNat = 93 := rfl
  have hrb : rbraceChar.toNat = 125 := rfl
  refine ⟨?_, ?_, ?_⟩
  · simp only [jsonWs, Bool.or_eq_false_iff, decide_eq_false_iff_not]
    refine ⟨⟨⟨?_, ?_⟩, ?_⟩, ?_⟩ <;> (apply char_ne_of_toNat_ne; omega)
  · apply char_ne_of_toNat_ne; omega
  · apply char_ne_of_toNat_ne; omega

theorem intRepr_head (n : Int) :
    ∃ c t, (intRepr n).data = c :: t ∧ (c.isDigit = true ∨ c = '-') := by
  unfold intRepr
  split
  · exact ⟨'-', _, rfl, Or.inr rfl⟩
  · obtain ⟨d, ds, hds⟩ := List.exists_cons_of_ne_nil (natDigits_ne_nil n.natAbs)
    refine ⟨d, ds, by simp [hds], Or.inl (natDigits_all _ d (by rw [hds]; simp))⟩

theorem floatDigits_head (a e : Nat) :
    ∃ c t, floatDigits a e = c :: t ∧ c.isDigit = true := by
  set ds1 := natDigits a with hds1
  set ds := List.replicate (e + 1 - ds1.length) '0' ++ ds1 with hds
  have hlen1 : 1 ≤ ds1.length := List.length_pos.mpr (natDigits_ne_nil a)
  have hlen : e + 1 ≤ ds.length := by
    rw [hds, List.length_append, List.length_replicate]
    omega
  have hall : ∀ c ∈ ds, c.isDigit = true := by
    intro c hc
    rcases List.mem_append.mp hc with hm | hm
    · rw [List.eq_of_mem_replicate hm]; rfl
    · exact natDigits_all a c hm
  have htne : ds.take (ds.length - e) ≠ [] := by
    have hl : (ds.take (ds.length - e)).length = ds.length - e := by
      rw [List.length_take]; omega
    intro hnil
    rw [hnil] at hl
    simp at hl
    omega
  obtain ⟨c, t, hct⟩ := List.exists_cons_of_ne_nil htne
  have heq : floatDigits a e =
      ds.take (ds.length - e) ++ '.' :: ds.drop (ds.length - e) := rfl
  refine ⟨c, t ++ '.' :: ds.drop (ds.length - e), by rw [heq, hct]; simp, ?_⟩
  exact hall c (List.mem_of_mem_take (by rw [hct]; simp))

theorem floatRepr_head (m : Int) (e : Nat) :
    ∃ c t, (floatRepr m e).data = c :: t ∧ (c.isDigit = true ∨ c = '-') := by
  unfold floatRepr
  split
  · exact ⟨'-', _, rfl, Or.inr rfl⟩
  · obtain ⟨c, t, hct, hd⟩ := floatDigits_head m.natAbs e
    exact ⟨c, t, by simp [hct], Or.inl hd⟩

/-- The head character of any dump: it exists, is not whitespace, and is
not a closer. -/
theorem dumpVal_head (v : PyVal) :
    ∃ c t, dumpVal v = c :: t ∧ jsonWs c = false ∧ ¬ c = ']' ∧ ¬ c = rbraceChar := by
  cases v with
  | none => exact ⟨'n', _, dumpVal_none, by decide, by decide, by decide⟩
  | bool b =>
    cases b
    · exact ⟨'f', _, by rw [dumpVal_bool]; rfl, by decide, by decide, by decide⟩
    · exact ⟨'t', _, by rw [dumpVal_bool]; rfl, by decide, by decide, by decide⟩
  | int n =>
    obtain ⟨c, t, hct, hc⟩ := intRepr_head n
    obtain ⟨h1, h2, h3⟩ := digit_head_facts hc
    exact ⟨c, t, by rw [dumpVal_int, hct], h1, h2, h3⟩
  | float m e =>
    obtain ⟨c, t, hct, hc⟩ := floatRepr_head m e
    obtain ⟨h1, h2, h3⟩ := digit_head_facts hc
    exact ⟨c, t, by rw [dumpVal_float, hct], h1, h2, h3⟩
  | str s =>
    exact ⟨'"', _, by rw [dumpVal_str]; rfl, by decide, by decide, by decide⟩
  | list xs =>
    exact ⟨'[', dumpElems xs ++ [']'], by rw [dumpVal_list]; rfl,
      by decide, by decide, by decide⟩
  | dict d =>
    exact ⟨lbraceChar, dumpEntries d ++ [rbraceChar], by rw [dumpVal_dict]; rfl,
      by decide, by decide, by decide⟩

theorem escapeChar_ne_nil (c : Char) : escapeChar c ≠ [] := by
  unfold escapeChar
  split_ifs <;> simp

theorem length_le_flatMap_escape (s : List Char) :
    s.length ≤ (s.flatMap escapeChar).length := by
  induction s with
  | nil => simp
  | cons c t ih =>
    rw [List.flatMap_cons, List.length_append, List.length_cons]
    have := List.length_pos.mpr (escapeChar_ne_nil c)
    omega

theorem alistSet_append_of_not_mem {α : Type} (acc : List (String × α)) (k : String)
    (v : α) (h : k ∉ acc.map Prod.fst) : alistSet acc k v = acc ++ [(k, v)] := by
  induction acc with
  | nil => rfl
  | cons kv rest ih =>
    simp only [List.map_cons, List.mem_cons, not_or] at h
    rw [alistSet.eq_def]
    dsimp only
    rw [if_neg (fun hc => h.1 hc.symm), ih h.2]
    simp

theorem dictSet_append_of_not_mem (acc : PyDict) (k : String) (v : PyVal)
    (h : k ∉ acc.map Prod.fst) : dictSet acc k v = acc ++ [(k, v)] :=
  alistSet_append_of_not_mem acc k v h

theorem numStop_cons {c : Char} (h1 : c.isDigit = false) (h2 : ¬ c = '.')
    (t : List Char) : numStop (c :: t) := by
  intro c' hc'
  simp only [List.head?_cons, Option.some.injEq] at hc'
  subst hc'
  exact ⟨h1, h2⟩

theorem key_not_mem_of_nodup (acc : PyDict) (k : String) (v : PyVal) (ds : PyDict)
    (hnd : ((acc ++ (k, v) :: ds).map Prod.fst).Nodup) : k ∉ acc.map Prod.fst := by
  rw [List.map_append, List.nodup_append] at hnd
  intro hmem
  exact hnd.2.2 hmem (by simp)

theorem one_le_sizeOf_PyVal (v : PyVal) : 1 ≤ sizeOf v := by
  cases v <;> simp_arith

mutual

/-- Parsing inverts dumping: `parseVal` on (whitespace followed by) the
dump of a wellformed value, followed by a continuation that does not
begin with a digit or a dot, returns the value and the continuation. -/
theorem parseVal_dump : ∀ (v : PyVal) (w rest : List Char) (fuel : Nat),
    (∀ c ∈ w, jsonWs c = true) → fuelNeeded v ≤ fuel → wfVal v = true →
    numStop rest → parseVal fuel (w ++ (dumpVal v ++ rest)) = some (v, rest)
  | .none, w, rest, fuel, hw, hf, hwf, hrest => by
    obtain ⟨f, rfl⟩ : ∃ f, fuel = f + 1 :=
      ⟨fuel - 1, by have := one_le_fuelNeeded .none; omega⟩
    rw [parseVal.eq_def]
    dsimp only
    rw [skipWs_ws_append w hw]
    rw [dumpVal_none, List.cons_append, skipWs_cons_nonws _ (by decide)]
    dsimp only
    rw [if_neg (by decide), if_neg (by decide), if_neg (by decide),
        if_neg (by decide), if_neg (by decide), if_pos rfl]
    rw [List.cons_append, List.cons_append, List.cons_append, List.nil_append]
    rw [show ('u' :: 'l' :: 'l' :: rest : List Char) = ['u', 'l', 'l'] ++ rest from rfl]
    rw [matchLit_self]
  | .bool b, w, rest, fuel, hw, hf, hwf, hrest => by
    obtain ⟨f, rfl⟩ : ∃ f, fuel = f + 1 :=
      ⟨fuel - 1, by have := one_le_fuelNeeded (.bool b); omega⟩
    rw [parseVal.eq_def]
    dsimp only
    rw [skipWs_ws_append w hw]
    cases b
    · rw [show dumpVal (.bool false) = ['f', 'a', 'l', 's', 'e'] from by
        rw [dumpVal_bool]; rfl]
      rw [List.cons_append, skipWs_cons_nonws _ (by decide)]
      dsimp only
      rw [if_neg (by decide), if_neg (by decide), if_neg (by decide),
          if_neg (by decide), if_pos rfl]
      rw [List.cons_append, List.cons_append, List.cons_append, List.cons_append,
        List.nil_append]
      rw [show ('a' :: 'l' :: 's' :: 'e' :: rest : List Char) =
        ['a', 'l', 's', 'e'] ++ rest from rfl]
      rw [matchLit_self]
    · rw [show dumpVal (.bool true) = ['t', 'r', 'u', 'e'] from by
        rw [dumpVal_bool]; rfl]
      rw [List.cons_append, skipWs_cons_nonws _ (by decide)]
      dsimp only
      rw [if_neg (by decide), if_neg (by decide), if_neg (by decide), if_pos rfl]
      rw [List.cons_append, List.cons_append, List.cons_append, List.nil_append]
      rw [show ('r' :: 'u' :: 'e' :: rest : List Char) = ['r', 'u', 'e'] ++ rest from rfl]
      rw [matchLit_self]
  | .int n, w, rest, fuel, hw, hf, hwf, hrest => by
    obtain ⟨f, rfl⟩ : ∃ f, fuel = f + 1 :=
      ⟨fuel - 1, by have := one_le_fuelNeeded (.int n); omega⟩
    rw [parseVal.eq_def]
    dsimp only
    rw [skipWs_ws_append w hw]
    rw [dumpVal_int]
    obtain ⟨c, t, hct, hc⟩ := intRepr_head n
    obtain ⟨hws, hq2, hlb, hbr, ht', hf', hn'⟩ := numeric_head_facts hc
    rw [hct, List.cons_append, skipWs_cons_nonws _ hws]
    dsimp only
    rw [if_neg hq2, if_neg hlb, if_neg hbr, if_neg ht', if_neg hf', if_neg hn']
    rw [← List.cons_append, ← hct]
    exact parseNumber_intRepr n rest hrest
  | .float m e, w, rest, fuel, hw, hf, hwf, hrest => by
    obtain ⟨f, rfl⟩ : ∃ f, fuel = f + 1 :=
      ⟨fuel - 1, by have := one_le_fuelNeeded (.float m e); omega⟩
    rw [parseVal.eq_def]
    dsimp only
    rw [skipWs_ws_append w hw]
    rw [dumpVal_float]
    have he : 1 ≤ e := by
      rw [wfVal.eq_def] at hwf
      dsimp only at hwf
      exact of_decide_eq_true hwf
    obtain ⟨c, t, hct, hc⟩ := floatRepr_head m e
    obtain ⟨hws, hq2, hlb, hbr, ht', hf', hn'⟩ := numeric_head_facts hc
    rw [hct, List.cons_append, skipWs_cons_nonws _ hws]
    dsimp only
    rw [if_neg hq2, if_neg hlb, if_neg hbr, if_neg ht', if_neg hf', if_neg hn']
    rw [← List.cons_append, ← hct]
    exact parseNumber_floatRepr m e he rest hrest
  | .str s, w, rest, fuel, hw, hf, hwf, hrest => by
    obtain ⟨f, rfl⟩ : ∃ f, fuel = f + 1 :=
      ⟨fuel - 1, by have := one_le_fuelNeeded (.str s); omega⟩
    rw [parseVal.eq_def]
    dsimp only
    rw [skipWs_ws_append w hw]
    rw [dumpVal_str]
    have hsh : encodeStr s ++ rest =
        '"' :: (s.data.flatMap escapeChar ++ ('"' :: rest)) := by
      unfold encodeStr
      simp
    rw [hsh, skipWs_cons_nonws _ (by decide)]
    dsimp only
    rw [if_pos rfl]
    have hlen : s.data.length ≤ (s.data.flatMap escapeChar ++ '"' :: rest).length := by
      rw [List.length_append]
      have := length_le_flatMap_escape s.data
      omega
    rw [parseStrBody_encode s.data rest _ hlen]
    rfl
  | .list [], w, rest, fuel, hw, hf, hwf, hrest => by
    obtain ⟨f, rfl⟩ : ∃ f, fuel = f + 1 :=
      ⟨fuel - 1, by have := one_le_fuelNeeded (.list []); omega⟩
    rw [parseVal.eq_def]
    dsimp only
    rw [skipWs_ws_append w hw]
    rw [dumpVal_list]
    have hsh : ('[' :: dumpElems [] ++ [']']) ++ rest =
        '[' :: (dumpElems [] ++ (']' :: rest)) := by simp
    rw [hsh, skipWs_cons_nonws _ (by decide)]
    dsimp only
    rw [if_neg (by decide), if_neg (by decide), if_pos rfl]
    rw [dumpElems_nil, List.nil_append, skipWs_cons_nonws _ (by decide)]
    dsimp only
    rw [if_pos rfl]
  | .list (x :: xs'), w, rest, fuel, hw, hf, hwf, hrest => by
    obtain ⟨f, rfl⟩ : ∃ f, fuel = f + 1 :=
      ⟨fuel - 1, by have := one_le_fuelNeeded (.list (x :: xs')); omega⟩
    rw [parseVal.eq_def]
    dsimp only
    rw [skipWs_ws_append w hw]
    rw [dumpVal_list]
    have hsh : ('[' :: dumpElems (x :: xs') ++ [']']) ++ rest =
        '[' :: (dumpElems (x :: xs') ++ (']' :: rest)) := by simp
    rw [hsh, skipWs_cons_nonws _ (by decide)]
    dsimp only
    rw [if_neg (by decide), if_neg (by decide), if_pos rfl]
    obtain ⟨c, t, hct, hws, hncl, _⟩ := dumpVal_head x
    have htl : ∃ tl, dumpElems (x :: xs') = dumpVal x ++ tl := by
      cases xs' with
      | nil => exact ⟨[], by rw [dumpElems_single]; simp⟩
      | cons y ys => exact ⟨',' :: ' ' :: dumpElems (y :: ys), dumpElems_cons2 x y ys⟩
    obtain ⟨tl, htl⟩ := htl
    have hsh2 : dumpElems (x :: xs') ++ ']' :: rest = c :: (t ++ tl ++ ']' :: rest) := by
      rw [htl, hct]
      simp
    rw [hsh2, skipWs_cons_nonws _ hws]
    dsimp only
    rw [if_neg hncl]
    have hback : c :: (t ++ tl ++ ']' :: rest) =
        ([] : List Char) ++ (dumpElems (x :: xs') ++ ']' :: rest) := by
      rw [htl, hct]
      simp
    rw [hback]
    have hfe : needElems (x :: xs') ≤ f := by
      rw [fuelNeeded.eq_def] at hf
      dsimp only at hf
      omega
    have hwfe : wfElems (x :: xs') = true := by
      rw [wfVal.eq_def] at hwf
      dsimp only at hwf
      exact hwf
    rw [parseElems_dump x xs' [] [] rest f (by simp) hfe hwfe]
    simp
  | .dict [], w, rest, fuel, hw, hf, hwf, hrest => by
    obtain ⟨f, rfl⟩ : ∃ f, fuel = f + 1 :=
      ⟨fuel - 1, by have := one_le_fuelNeeded (.dict []); omega⟩
    rw [parseVal.eq_def]
    dsimp only
    rw [skipWs_ws_append w hw]
    rw [dumpVal_dict]
    have hsh : (lbraceChar :: dumpEntries [] ++ [rbraceChar]) ++ rest =
        lbraceChar :: (dumpEntries [] ++ (rbraceChar :: rest)) := by simp
    rw [hsh, skipWs_cons_nonws _ (by decide)]
    dsimp only
    rw [if_neg (by decide), if_pos rfl]
    rw [dumpEntries_nil, List.nil_append, skipWs_cons_nonws _ (by decide)]
    dsimp only
    rw [if_pos rfl]
  | .dict ((k, v) :: ds), w, rest, fuel, hw, hf, hwf, hrest => by
    obtain ⟨f, rfl⟩ : ∃ f, fuel = f + 1 :=
      ⟨fuel - 1, by have := one_le_fuelNeeded (.dict ((k, v) :: ds)); omega⟩
    rw [parseVal.eq_def]
    dsimp only
    rw [skipWs_ws_append w hw]
    rw [dumpVal_dict]
    have hsh : (lbraceChar :: dumpEntries ((k, v) :: ds) ++ [rbraceChar]) ++ rest =
        lbraceChar :: (dumpEntries ((k, v) :: ds) ++ (rbraceChar :: rest)) := by simp
    rw [hsh, skipWs_cons_nonws _ (by decide)]
    dsimp only
    rw [if_neg (by decide), if_pos rfl]
    have htl : ∃ tl, dumpEntries ((k, v) :: ds) = '"' ::
        (k.data.flatMap escapeChar ++ ('"' :: (':' :: ' ' :: dumpVal v ++ tl))) := by
      cases ds with
      | nil =>
        refine ⟨[], ?_⟩
        rw [dumpEntries_single]
        unfold encodeStr
        simp
      | cons e2 ds' =>
        refine ⟨',' :: ' ' :: dumpEntries (e2 :: ds'), ?_⟩
        rw [dumpEntries_cons2]
        unfold encodeStr
        simp
    obtain ⟨tl, htl⟩ := htl
    have hsh2 : dumpEntries ((k, v) :: ds) ++ rbraceChar :: rest = '"' ::
        (k.data.flatMap escapeChar ++
          ('"' :: (':' :: ' ' :: dumpVal v ++ tl)) ++ rbraceChar :: rest) := by
      rw [htl]
      simp
    rw [hsh2, skipWs_cons_nonws _ (by decide)]
    dsimp only
    rw [if_neg (by decide)]
    have hback : '"' :: (k.data.flatMap escapeChar ++
          ('"' :: (':' :: ' ' :: dumpVal v ++ tl)) ++ rbraceChar :: rest) =
        ([] : List Char) ++ (dumpEntries ((k, v) :: ds) ++ rbraceChar :: rest) := by
      rw [htl]
      simp
    rw [hback]
    have hfe : needMembers ((k, v) :: ds) ≤ f := by
      rw [fuelNeeded.eq_def] at hf
      dsimp only at hf
      omega
    have hwfd : ((((k, v) :: ds).map Prod.fst).Nodup) ∧
        wfEntries ((k, v) :: ds) = true := by
      rw [wfVal.eq_def] at hwf
      dsimp only at hwf
      rw [Bool.and_eq_true, decide_eq_true_eq] at hwf
      exact hwf
    rw [parseMembers_dump k v ds [] [] rest f (by simp) hfe hwfd.2
      (by simpa using hwfd.1)]
    simp
termination_by v w rest fuel hw hf hwf hrest => sizeOf v
decreasing_by
  all_goals simp_wf
  all_goals omega

/-- Parsing inverts dumping for the elements of a non-empty list. -/
theorem parseElems_dump : ∀ (x : PyVal) (xs : List PyVal) (w : List Char)
    (acc : List PyVal) (rest : List Char) (fuel : Nat),
    (∀ c ∈ w, jsonWs c = true) → needElems (x :: xs) ≤ fuel →
    wfElems (x :: xs) = true →
    parseElems fuel (w ++ (dumpElems (x :: xs) ++ ']' :: rest)) acc =
      some (.list (acc ++ x :: xs), rest)
  | x, [], w, acc, rest, fuel, hw, hf, hwf => by
    obtain ⟨f, rfl⟩ : ∃ f, fuel = f + 1 :=
      ⟨fuel - 1, by have := one_le_needElems [x]; omega⟩
    rw [parseElems.eq_def]
    dsimp only
    have hfx : fuelNeeded x ≤ f := by
      rw [needElems.eq_def] at hf
      dsimp only at hf
      omega
    have hwx : wfVal x = true ∧ wfElems [] = true := by
      rw [wfElems.eq_def] at hwf
      dsimp only at hwf
      rw [Bool.and_eq_true] at hwf
      exact hwf
    rw [dumpElems_single]
    rw [parseVal_dump x w (']' :: rest) f hw hfx hwx.1
      (numStop_cons (by decide) (by decide) rest)]
    dsimp only
    rw [skipWs_cons_nonws _ (by decide)]
    dsimp only
    rw [if_neg (by decide), if_pos rfl]
  | x, y :: ys, w, acc, rest, fuel, hw, hf, hwf => by
    obtain ⟨f, rfl⟩ : ∃ f, fuel = f + 1 :=
      ⟨fuel - 1, by have := one_le_needElems (x :: y :: ys); omega⟩
    rw [parseElems.eq_def]
    dsimp only
    have hfx : fuelNeeded x ≤ f := by
      rw [needElems.eq_def] at hf
      dsimp only at hf
      omega
    have hwx : wfVal x = true ∧ wfElems (y :: ys) = true := by
      rw [wfElems.eq_def] at hwf
      dsimp only at hwf
      rw [Bool.and_eq_true] at hwf
      exact hwf
    rw [dumpElems_cons2]
    have hsh : (dumpVal x ++ ',' :: ' ' :: dumpElems (y :: ys)) ++ ']' :: rest =
        dumpVal x ++ (',' :: ' ' :: (dumpElems (y :: ys) ++ ']' :: rest)) := by simp
    rw [hsh]
    rw [parseVal_dump x w (',' :: ' ' :: (dumpElems (y :: ys) ++ ']' :: rest)) f hw hfx
      hwx.1 (numStop_cons (by decide) (by decide) _)]
    dsimp only
    rw [skipWs_cons_nonws _ (by decide)]
    dsimp only
    rw [if_pos rfl]
    have hfe : needElems (y :: ys) ≤ f := by
      rw [needElems.eq_def] at hf
      dsimp only at hf
      omega
    rw [show (' ' :: (dumpElems (y :: ys) ++ ']' :: rest) : List Char) =
      [' '] ++ (dumpElems (y :: ys) ++ ']' :: rest) from rfl]
    rw [parseElems_dump y ys [' '] (acc ++ [x]) rest f (by decide) hfe hwx.2]
    simp
termination_by x xs w acc rest fuel hw hf hwf => 1 + sizeOf x + sizeOf xs
decreasing_by
  all_goals simp_wf
  all_goals omega

/-- Parsing inverts dumping for the members of a non-empty dict. -/
theorem parseMembers_dump : ∀ (k : String) (v : PyVal) (ds : PyDict) (w : List Char)
    (acc : PyDict) (rest : List Char) (fuel : Nat),
    (∀ c ∈ w, jsonWs c = true) → needMembers ((k, v) :: ds) ≤ fuel →
    wfEntries ((k, v) :: ds) = true →
    ((acc ++ (k, v) :: ds).map Prod.fst).Nodup →
    parseMembers fuel (w ++ (dumpEntries ((k, v) :: ds) ++ rbraceChar :: rest)) acc =
      some (.dict (acc ++ (k, v) :: ds), rest)
  | k, v, [], w, acc, rest, fuel, hw, hf, hwf, hnd => by
    obtain ⟨f, rfl⟩ : ∃ f, fuel = f + 1 :=
      ⟨fuel - 1, by have := one_le_needMembers [(k, v)]; omega⟩
    rw [parseMembers.eq_def]
    dsimp only
    have hfv : fuelNeeded v ≤ f := by
      rw [needMembers.eq_def] at hf
      dsimp only at hf
      omega
    have hwv : wfVal v = true ∧ wfEntries [] = true := by
      rw [wfEntries.eq_def] at hwf
      dsimp only at hwf
      rw [Bool.and_eq_true] at hwf
      exact hwf
    have hkey : String.mk k.data = k := rfl
    have hknm : k ∉ acc.map Prod.fst := key_not_mem_of_nodup acc k v [] hnd
    rw [dumpEntries_single]
    have hsh : w ++ ((encodeStr k ++ ':' :: ' ' :: dumpVal v) ++ rbraceChar :: rest) =
        w ++ ('"' :: (k.data.flatMap escapeChar ++
          ('"' :: (':' :: (' ' :: (dumpVal v ++ rbraceChar :: rest)))))) := by
      unfold encodeStr
      simp
    rw [hsh, skipWs_ws_append w hw, skipWs_cons_nonws _ (by decide)]
    dsimp only
    rw [if_pos rfl]
    have hlen : k.data.length ≤ (k.data.flatMap escapeChar ++
        '"' :: (':' :: (' ' :: (dumpVal v ++ rbraceChar :: rest)))).length := by
      rw [List.length_append]
      have := length_le_flatMap_escape k.data
      omega
    rw [parseStrBody_encode k.data (':' :: (' ' :: (dumpVal v ++ rbraceChar :: rest)))
      _ hlen]
    dsimp only
    rw [skipWs_cons_nonws _ (by decide)]
    dsimp only
    rw [if_pos rfl]
    rw [show (' ' :: (dumpVal v ++ rbraceChar :: rest) : List Char) =
      [' '] ++ (dumpVal v ++ rbraceChar :: rest) from rfl]
    rw [parseVal_dump v [' '] (rbraceChar :: rest) f (by decide) hfv hwv.1
      (numStop_cons (by decide) (by decide) rest)]
    dsimp only
    rw [skipWs_cons_nonws _ (by decide)]
    dsimp only
    rw [if_neg (by decide), if_pos rfl, hkey,
      dictSet_append_of_not_mem acc k v hknm]
  | k, v, (k2, v2) :: ds', w, acc, rest, fuel, hw, hf, hwf, hnd => by
    obtain ⟨f, rfl⟩ : ∃ f, fuel = f + 1 :=
      ⟨fuel - 1, by have := one_le_needMembers ((k, v) :: (k2, v2) :: ds'); omega⟩
    rw [parseMembers.eq_def]
    dsimp only
    have hfv : fuelNeeded v ≤ f := by
      rw [needMembers.eq_def] at hf
      dsimp only at hf
      omega
    have hwv : wfVal v = true ∧ wfEntries ((k2, v2) :: ds') = true := by
      rw [wfEntries.eq_def] at hwf
      dsimp only at hwf
      rw [Bool.and_eq_true] at hwf
      exact hwf
    have hkey : String.mk k.data = k := rfl
    have hknm : k ∉ acc.map Prod.fst := key_not_mem_of_nodup acc k v _ hnd
    rw [dumpEntries_cons2]
    have hsh : w ++ ((encodeStr k ++ ':' :: ' ' :: dumpVal v ++
          ',' :: ' ' :: dumpEntries ((k2, v2) :: ds')) ++ rbraceChar :: rest) =
        w ++ ('"' :: (k.data.flatMap escapeChar ++
          ('"' :: (':' :: (' ' :: (dumpVal v ++ ',' :: ' ' ::
            (dumpEntries ((k2, v2) :: ds') ++ rbraceChar :: rest))))))) := by
      unfold encodeStr
      simp
    rw [hsh, skipWs_ws_append w hw, skipWs_cons_nonws _ (by decide)]
    dsimp only
    rw [if_pos rfl]
    have hlen : k.data.length ≤ (k.data.flatMap escapeChar ++
        '"' :: (':' :: (' ' :: (dumpVal v ++ ',' :: ' ' ::
          (dumpEntries ((k2, v2) :: ds') ++ rbraceChar :: rest))))).length := by
      rw [List.length_append]
      have := length_le_flatMap_escape k.data
      omega
    rw [parseStrBody_encode k.data (':' :: (' ' :: (dumpVal v ++ ',' :: ' ' ::
      (dumpEntries ((k2, v2) :: ds') ++ rbraceChar :: rest)))) _ hlen]
    dsimp only
    rw [skipWs_cons_nonws _ (by decide)]
    dsimp only
    rw [if_pos rfl]
    rw [show (' ' :: (dumpVal v ++ ',' :: ' ' ::
        (dumpEntries ((k2, v2) :: ds') ++ rbraceChar :: rest)) : List Char) =
      [' '] ++ (dumpVal v ++ ',' :: ' ' ::
        (dumpEntries ((k2, v2) :: ds') ++ rbraceChar :: rest)) from rfl]
    rw [parseVal_dump v [' '] (',' :: ' ' ::
        (dumpEntries ((k2, v2) :: ds') ++ rbraceChar :: rest)) f (by decide) hfv hwv.1
      (numStop_cons (by decide) (by decide) _)]
    dsimp only
    rw [skipWs_cons_nonws _ (by decide)]
    dsimp only
    rw [if_pos rfl, hkey, dictSet_append_of_not_mem acc k v hknm]
    have hfe : needMembers ((k2, v2) :: ds') ≤ f := by
      rw [needMembers.eq_def] at hf
      dsimp only at hf
      omega
    rw [show (' ' :: (dumpEntries ((k2, v2) :: ds') ++ rbraceChar :: rest) : List Char) =
      [' '] ++ (dumpEntries ((k2, v2) :: ds') ++ rbraceChar :: rest) from rfl]
    rw [parseMembers_dump k2 v2 ds' [' '] (acc ++ [(k, v)]) rest f (by decide) hfe hwv.2
      (by rw [List.append_assoc]; exact hnd)]
    simp
termination_by k v ds w acc rest fuel hw hf hwf hnd => sizeOf v + sizeOf ds + 1
decreasing_by
  all_goals simp_wf
  all_goals omega

end

theorem one_le_dumpVal_length (v : PyVal) : 1 ≤ (dumpVal v).length := by
  obtain ⟨c, t, hct, -⟩ := dumpVal_head v
  rw [hct]
  simp

mutual

/-- The dump is at least as long as the fuel `parseVal` needs. -/
theorem fuelNeeded_le_length : ∀ (v : PyVal), fuelNeeded v ≤ (dumpVal v).length
  | .none => by
    rw [fuelNeeded.eq_def, dumpVal_none]
    dsimp only
    simp
  | .bool b => by
    rw [fuelNeeded.eq_def, dumpVal_bool]
    dsimp only
    cases b <;> simp
  | .int n => by
    rw [fuelNeeded.eq_def]
    dsimp only
    exact one_le_dumpVal_length (.int n)
  | .float m e => by
    rw [fuelNeeded.eq_def]
    dsimp only
    exact one_le_dumpVal_length (.float m e)
  | .str s => by
    rw [fuelNeeded.eq_def]
    dsimp only
    exact one_le_dumpVal_length (.str s)
  | .list xs => by
    rw [fuelNeeded.eq_def, dumpVal_list]
    dsimp only
    have h := needElems_le_length xs
    simp only [List.length_cons, List.length_append]
    omega
  | .dict d => by
    rw [fuelNeeded.eq_def, dumpVal_dict]
    dsimp only
    have h := needMembers_le_length d
    simp only [List.length_cons, List.length_append]
    omega

/-- The dump of a list body is nearly as long as the fuel needed. -/
theorem needElems_le_length : ∀ (xs : List PyVal),
    needElems xs ≤ (dumpElems xs).length + 1
  | [] => by
    rw [needElems.eq_def, dumpElems_nil]
    simp
  | [x] => by
    rw [needElems.eq_def, dumpElems_single]
    dsimp only
    have h0 : needElems ([] : List PyVal) = 1 := by rw [needElems.eq_def]
    have h1 := fuelNeeded_le_length x
    have h2 := one_le_dumpVal_length x
    omega
  | x :: y :: ys => by
    rw [needElems.eq_def, dumpElems_cons2]
    dsimp only
    have h1 := fuelNeeded_le_length x
    have h2 := needElems_le_length (y :: ys)
    simp only [List.length_append, List.length_cons]
    omega

/-- The dump of a dict body is nearly as long as the fuel needed. -/
theorem needMembers_le_length : ∀ (d : PyDict),
    needMembers d ≤ (dumpEntries d).length + 1
  | [] => by
    rw [needMembers.eq_def, dumpEntries_nil]
    simp
  | [(k, v)] => by
    rw [needMembers.eq_def, dumpEntries_single]
    dsimp only
    have h0 : needMembers ([] : PyDict) = 1 := by rw [needMembers.eq_def]
    have h1 := fuelNeeded_le_length v
    have h2 := one_le_dumpVal_length v
    simp only [List.length_append, List.length_cons]
    omega
  | (k, v) :: e :: ds => by
    rw [needMembers.eq_def, dumpEntries_cons2]
    dsimp only
    have h1 := fuelNeeded_le_length v
    have h2 := needMembers_le_length (e :: ds)
    simp only [List.length_append, List.length_cons]
    omega

end

/-- The JSON round trip: `json.loads` inverts `json.dumps` on every
wellformed Python value. -/
theorem loads_dumps (v : PyVal) (hwf : wfVal v = true) : loads (dumps v) = some v := by
  unfold loads dumps
  have hd : (String.mk (dumpVal v)).data = dumpVal v := rfl
  rw [hd]
  have hfl : fuelNeeded v ≤ (dumpVal v).length + 1 := by
    have := fuelNeeded_le_length v
    omega
  have hp := parseVal_dump v [] [] ((dumpVal v).length + 1) (by simp) hfl hwf
    (by intro c hc; simp at hc)
  simp only [List.nil_append, List.append_nil] at hp
  rw [hp]
  dsimp only
  rfl


/-! ## Store lemmas (for the persistence claims) -/

theorem exbind_ok {eps alpha beta : Type} (x : alpha) (f : alpha → Except eps beta) :
    (Except.ok x >>= f) = f x := rfl

theorem exbind_err {eps alpha beta : Type} (e : eps) (f : alpha → Except eps beta) :
    (Except.error e >>= f : Except eps beta) = Except.error e := rfl

theorem findRow_append_of_none (st1 st2 : Store) (k : Int) (h : findRow st1 k = Option.none) :
    findRow (st1 ++ st2) k = findRow st2 k := by
  induction st1 with
  | nil => simp
  | cons r rest ih =>
    rw [findRow] at h
    rw [List.cons_append, findRow]
    by_cases hk : r.id = k
    · rw [if_pos hk] at h; exact absurd h (by simp)
    · rw [if_neg hk] at h ⊢; exact ih h

theorem findRow_filter_self (st : Store) (k : Int) :
    findRow (st.filter fun r' => r'.id ≠ k) k = Option.none := by
  induction st with
  | nil => rfl
  | cons r rest ih =>
    by_cases hk : r.id = k
    · rw [List.filter_cons, if_neg (by simp [hk])]; exact ih
    · rw [List.filter_cons, if_pos (by simpa using hk), findRow, if_neg hk]; exact ih

theorem findRow_filter_other (st : Store) (i k : Int) (h : k ≠ i) :
    findRow (st.filter fun r' => r'.id ≠ i) k = findRow st k := by
  induction st with
  | nil => rfl
  | cons r rest ih =>
    by_cases hi : r.id = i
    · rw [List.filter_cons, if_neg (by simp [hi]), findRow, if_neg (by rw [hi]; exact fun hx => h hx.symm)]
      exact ih
    · rw [List.filter_cons, if_pos (by simpa using hi), findRow, findRow]
      by_cases hk : r.id = k
      · rw [if_pos hk, if_pos hk]
      · rw [if_neg hk, if_neg hk]; exact ih

theorem findRow_upsert_self (st : Store) (r : DbRow) : findRow (upsertRow st r) r.id = some r := by
  rw [upsertRow, findRow_append_of_none _ _ _ (findRow_filter_self st r.id), findRow, if_pos rfl]

theorem findRow_upsert_other (st : Store) (r : DbRow) (k : Int) (h : k ≠ r.id) :
    findRow (upsertRow st r) k = findRow st k := by
  rw [upsertRow]
  induction st with
  | nil =>
    show (if r.id = k then some r else findRow [] k) = Option.none
    rw [if_neg (fun hx => h hx.symm)]
    rfl
  | cons r' rest ih =>
    by_cases hr : r'.id = r.id
    · rw [List.filter_cons, if_neg (by simp [hr]), findRow, if_neg (by rw [hr]; exact fun hx => h hx.symm)]
      exact ih
    · rw [List.filter_cons, if_pos (by simpa using hr), List.cons_append, findRow, findRow]
      by_cases hk : r'.id = k
      · rw [if_pos hk, if_pos hk]
      · rw [if_neg hk, if_neg hk]; exact ih

theorem add_entry_eq (st : Store) (d : PyDict) (idv : PyVal) (key : Int) (u : Option String)
    (hid : dictGet d "id" = some idv) (hkey : sqlIntKey idv = .ok key)
    (hurl : sqlTextBind (dictGet d "url") = .ok u) :
    add_entry st d = .ok (upsertRow st ⟨key, u, dumps (.dict d)⟩) := by
  rw [add_entry, hid]
  simp only [Option.isNone_some, Option.getD_some, Bool.false_eq_true, if_false, hkey,
    exbind_ok, hurl]
  rfl

theorem dictGet_dictSet_self (d : PyDict) (k : String) (v : PyVal) :
    dictGet (dictSet d k v) k = some v := by
  induction d with
  | nil => rw [dictSet, alistSet, dictGet, if_pos rfl]
  | cons kv rest ih =>
    obtain ⟨k', v'⟩ := kv
    rw [dictSet, alistSet]
    by_cases hk : k' = k
    · rw [if_pos hk, dictGet, if_pos hk]
    · rw [if_neg hk, dictGet, if_neg hk]; exact ih

theorem dictGet_dictSet_ne (d : PyDict) (k k' : String) (v : PyVal) (h : k' ≠ k) :
    dictGet (dictSet d k v) k' = dictGet d k' := by
  induction d with
  | nil =>
    show (if k = k' then some v else dictGet [] k') = dictGet [] k'
    rw [if_neg (fun hx => h hx.symm)]
  | cons kv rest ih =>
    obtain ⟨k0, v0⟩ := kv
    rw [dictSet, alistSet]
    by_cases hk : k0 = k
    · rw [if_pos hk, dictGet, dictGet]
      by_cases h0 : k0 = k'
      · exact absurd (h0 ▸ hk) h
      · rw [if_neg h0, if_neg h0]
    · rw [if_neg hk, dictGet, dictGet]
      by_cases h0 : k0 = k'
      · rw [if_pos h0, if_pos h0]
      · rw [if_neg h0, if_neg h0]; exact ih

theorem alistSet_map_fst (d : PyDict) (k : String) (v : PyVal) :
    (alistSet d k v).map Prod.fst =
      if k ∈ d.map Prod.fst then d.map Prod.fst else d.map Prod.fst ++ [k] := by
  induction d with
  | nil => simp [alistSet]
  | cons kv rest ih =>
    obtain ⟨k', v'⟩ := kv
    rw [alistSet]
    by_cases hk : k' = k
    · subst hk
      rw [if_pos rfl]
      simp
    · rw [if_neg hk]
      simp only [List.map_cons, List.mem_cons, ih]
      by_cases hc : k ∈ rest.map Prod.fst
      · rw [if_pos hc, if_pos (Or.inr hc)]
      · rw [if_neg hc, if_neg (by rintro (h1 | h2); exact hk h1.symm; exact hc h2)]
        rfl

theorem nodup_alistSet (d : PyDict) (k : String) (v : PyVal)
    (h : (d.map Prod.fst).Nodup) : ((alistSet d k v).map Prod.fst).Nodup := by
  rw [alistSet_map_fst]
  split
  · exact h
  · rename_i hk
    simp [List.nodup_append, h, hk]

theorem wfEntries_alistSet (d : PyDict) (k : String) (v : PyVal)
    (hd : wfEntries d = true) (hv : wfVal v = true) :
    wfEntries (alistSet d k v) = true := by
  induction d with
  | nil => rw [alistSet]; simp [wfEntries, hv]
  | cons kv rest ih =>
    obtain ⟨k', v'⟩ := kv
    rw [wfEntries] at hd
    obtain ⟨h1, h2⟩ := Bool.and_eq_true_iff.mp hd
    rw [alistSet]
    by_cases hk : k' = k
    · rw [if_pos hk, wfEntries]
      exact Bool.and_eq_true_iff.mpr ⟨hv, h2⟩
    · rw [if_neg hk, wfEntries]
      exact Bool.and_eq_true_iff.mpr ⟨h1, ih h2⟩

theorem wfVal_dictSet (d : PyDict) (k : String) (v : PyVal)
    (hd : wfVal (.dict d) = true) (hv : wfVal v = true) :
    wfVal (.dict (dictSet d k v)) = true := by
  rw [wfVal] at hd ⊢
  obtain ⟨h1, h2⟩ := Bool.and_eq_true_iff.mp hd
  refine Bool.and_eq_true_iff.mpr ⟨?_, wfEntries_alistSet d k v h2 hv⟩
  simpa using nodup_alistSet d k v (by simpa using h1)

theorem get_listing_upsert (st : Store) (key : Int) (u : Option String) (d : PyDict)
    (hwf : wfVal (.dict d) = true) :
    get_listing (upsertRow st ⟨key, u, dumps (.dict d)⟩) key = .ok (some (.dict d)) := by
  rw [get_listing, show findRow (upsertRow st ⟨key, u, dumps (.dict d)⟩) key =
        some ⟨key, u, dumps (.dict d)⟩ from findRow_upsert_self st ⟨key, u, dumps (.dict d)⟩]
  dsimp only
  rw [loads_dumps (.dict d) hwf]

theorem falsyOrDict_elim (v : PyVal) (h : falsyOrDict v = true) (ht : ¬ pyTruthy v = false) :
    ∃ dd, v = .dict dd := by
  have h' : pyTruthy v = false ∨ isDictVal v = true := by simpa [falsyOrDict] using h
  rcases h' with h1 | h2
  · exact absurd h1 ht
  · cases v <;> simp [isDictVal] at h2 ⊢

theorem dictGet_of_any (d : PyDict) (k : String)
    (h : (d.any fun kv => kv.1 == k) = true) : ∃ v, dictGet d k = some v := by
  induction d with
  | nil => simp at h
  | cons kv rest ih =>
    rw [List.any_cons] at h
    rw [dictGet]
    by_cases hk : kv.1 = k
    · exact ⟨kv.2, by rw [if_pos hk]⟩
    · rw [if_neg hk]
      apply ih
      have h' : (kv.1 == k) = true ∨ (rest.any fun kv => kv.1 == k) = true := by simpa using h
      rcases h' with h1 | h2
      · exact absurd (by simpa using h1) hk
      · exact h2

theorem foldlM_ok {α β : Type} (step : β → α → Except PyErr β) : ∀ (xs : List α),
    (∀ a x, x ∈ xs → ∃ r, step a x = .ok r) →
    ∀ acc, ∃ r, xs.foldlM step acc = .ok r := by
  intro xs
  induction xs with
  | nil => exact fun _ acc => ⟨acc, rfl⟩
  | cons x xs ih =>
    intro h acc
    obtain ⟨r, hr⟩ := h acc x (by simp)
    obtain ⟨r2, hr2⟩ := ih (fun a y hy => h a y (by simp [hy])) r
    exact ⟨r2, by rw [List.foldlM_cons, hr, exbind_ok, hr2]⟩

theorem locStep_ok (st : String × String) (v : PyVal) (h : falsyOrDict v = true) :
    ∃ r, locStep st v = .ok r := by
  by_cases ht : pyTruthy v = false
  · exact ⟨st, by rw [locStep, if_pos ht]; rfl⟩
  · obtain ⟨dd, rfl⟩ := falsyOrDict_elim v h ht
    rw [locStep, if_neg ht]
    rw [show pyContains (.dict dd) "title" = Except.ok (dd.any fun kv => kv.1 == "title") from rfl,
      exbind_ok]
    by_cases h1 : (dd.any fun kv => kv.1 == "title") = false
    · exact ⟨st, by rw [if_pos h1]; rfl⟩
    · rw [if_neg h1]
      rw [show pyContains (.dict dd) "content" = Except.ok (dd.any fun kv => kv.1 == "content") from rfl,
        exbind_ok]
      by_cases h2 : (dd.any fun kv => kv.1 == "content") = false
      · exact ⟨st, by rw [if_pos h2]; rfl⟩
      · rw [if_neg h2]
        obtain ⟨tv, htv⟩ := dictGet_of_any dd "title" (by revert h1; cases dd.any fun kv => kv.1 == "title" <;> simp)
        obtain ⟨cv, hcv⟩ := dictGet_of_any dd "content" (by revert h2; cases dd.any fun kv => kv.1 == "content" <;> simp)
        rw [show pySubscript (.dict dd) "title" = (match dictGet dd "title" with
              | some x => Except.ok x | Option.none => Except.error PyErr.keyError) from rfl, htv]
        rw [exbind_ok]
        rw [show pySubscript (.dict dd) "content" = (match dictGet dd "content" with
              | some x => Except.ok x | Option.none => Except.error PyErr.keyError) from rfl, hcv]
        rw [exbind_ok]
        show ∃ r, (if pyStrip (pyLower (pyStrOf tv)) = "getting around" then
              (Except.ok (st.1, _clean_html_content (pyStrOf cv)) : Except PyErr (String × String))
            else if pyStrip (pyLower (pyStrOf tv)) = "neighbourhood highlights" then
              Except.ok (_clean_html_content (pyStrOf cv), st.2)
            else if st.1 = "" ∧ _clean_html_content (pyStrOf cv) ≠ "" then
              Except.ok (_clean_html_content (pyStrOf cv), st.2)
            else Except.ok st) = Except.ok r
        split
        · exact ⟨_, rfl⟩
        · split
          · exact ⟨_, rfl⟩
          · split
            · exact ⟨_, rfl⟩
            · exact ⟨_, rfl⟩

theorem pyTruthy_true_of_not_false (v : PyVal) (ht : ¬ pyTruthy v = false) :
    pyTruthy v = true := by
  revert ht; cases pyTruthy v <;> simp

theorem safeItems_elim (v : PyVal) (h : safeItems v = true) (ht : ¬ pyTruthy v = false) :
    ∃ xs, v = .list xs ∧ ∀ x ∈ xs, falsyOrDict x = true := by
  have htt : pyTruthy v = true := pyTruthy_true_of_not_false v ht
  cases v with
  | list xs =>
    have h2 : (!pyTruthy (PyVal.list xs) || xs.all falsyOrDict) = true := h
    rw [htt] at h2
    simp at h2
    exact ⟨xs, rfl, h2⟩
  | none => exact absurd htt (by decide)
  | bool b =>
    have h2 : (!pyTruthy (PyVal.bool b) || false) = true := h
    rw [htt] at h2; exact absurd h2 (by decide)
  | int n =>
    have h2 : (!pyTruthy (PyVal.int n) || false) = true := h
    rw [htt] at h2; exact absurd h2 (by decide)
  | float m e =>
    have h2 : (!pyTruthy (PyVal.float m e) || false) = true := h
    rw [htt] at h2; exact absurd h2 (by decide)
  | str s =>
    have h2 : (!pyTruthy (PyVal.str s) || false) = true := h
    rw [htt] at h2; exact absurd h2 (by decide)
  | dict d2 =>
    have h2 : (!pyTruthy (PyVal.dict d2) || false) = true := h
    rw [htt] at h2; exact absurd h2 (by decide)

theorem safeReview_elim (v : PyVal) (h : safeReview v = true) (ht : ¬ pyTruthy v = false) :
    ∃ rd ls, v = .dict rd ∧ dictGetD rd "language" (.str "") = .str ls := by
  have htt : pyTruthy v = true := pyTruthy_true_of_not_false v ht
  cases v with
  | dict rd =>
    have h2 : (!pyTruthy (PyVal.dict rd) || isStrVal (dictGetD rd "language" (.str ""))) = true := h
    rw [htt] at h2
    simp at h2
    cases hx : dictGetD rd "language" (.str "") with
    | str ls => exact ⟨rd, ls, rfl, hx⟩
    | none => rw [hx] at h2; simp [isStrVal] at h2
    | bool b => rw [hx] at h2; simp [isStrVal] at h2
    | int n => rw [hx] at h2; simp [isStrVal] at h2
    | float m e => rw [hx] at h2; simp [isStrVal] at h2
    | list xs => rw [hx] at h2; simp [isStrVal] at h2
    | dict d3 => rw [hx] at h2; simp [isStrVal] at h2
  | none => exact absurd htt (by decide)
  | bool b =>
    have h2 : (!pyTruthy (PyVal.bool b) || false) = true := h
    rw [htt] at h2; exact absurd h2 (by decide)
  | int n =>
    have h2 : (!pyTruthy (PyVal.int n) || false) = true := h
    rw [htt] at h2; exact absurd h2 (by decide)
  | float m e =>
    have h2 : (!pyTruthy (PyVal.float m e) || false) = true := h
    rw [htt] at h2; exact absurd h2 (by decide)
  | str s =>
    have h2 : (!pyTruthy (PyVal.str s) || false) = true := h
    rw [htt] at h2; exact absurd h2 (by decide)
  | list xs =>
    have h2 : (!pyTruthy (PyVal.list xs) || false) = true := h
    rw [htt] at h2; exact absurd h2 (by decide)

theorem safeReviews_elim (v : PyVal) (h : safeReviews v = true) (ht : ¬ pyTruthy v = false) :
    ∃ xs, v = .list xs ∧ ∀ x ∈ xs, safeReview x = true := by
  have htt : pyTruthy v = true := pyTruthy_true_of_not_false v ht
  cases v with
  | list xs =>
    have h2 : (!pyTruthy (PyVal.list xs) || xs.all safeReview) = true := h
    rw [htt] at h2
    simp at h2
    exact ⟨xs, rfl, h2⟩
  | none => exact absurd htt (by decide)
  | bool b =>
    have h2 : (!pyTruthy (PyVal.bool b) || false) = true := h
    rw [htt] at h2; exact absurd h2 (by decide)
  | int n =>
    have h2 : (!pyTruthy (PyVal.int n) || false) = true := h
    rw [htt] at h2; exact absurd h2 (by decide)
  | float m e =>
    have h2 : (!pyTruthy (PyVal.float m e) || false) = true := h
    rw [htt] at h2; exact absurd h2 (by decide)
  | str s =>
    have h2 : (!pyTruthy (PyVal.str s) || false) = true := h
    rw [htt] at h2; exact absurd h2 (by decide)
  | dict d2 =>
    have h2 : (!pyTruthy (PyVal.dict d2) || false) = true := h
    rw [htt] at h2; exact absurd h2 (by decide)

theorem pyIterate_cases (v : PyVal) :
    (∃ xs, pyIterate v = .ok xs) ∨ pyIterate v = .error .typeError := by
  cases v <;> first | exact Or.inl ⟨_, rfl⟩ | exact Or.inr rfl

theorem pyIntOf_cases (v : PyVal) :
    (∃ n, pyIntOf v = .ok n) ∨ (∃ m, pyIntOf v = .error (.valueError m)) ∨
      pyIntOf v = .error .typeError := by
  cases v with
  | int n => exact Or.inl ⟨n, rfl⟩
  | bool b => exact Or.inl ⟨_, rfl⟩
  | float m e => exact Or.inl ⟨_, rfl⟩
  | str s =>
    have hred : pyIntOf (.str s) = (match pyIntOfString s with
        | some n => Except.ok n
        | Option.none => Except.error (.valueError "invalid literal for int")) := rfl
    cases hx : pyIntOfString s with
    | some n => exact Or.inl ⟨n, by rw [hred, hx]⟩
    | none => exact Or.inr (Or.inl ⟨_, by rw [hred, hx]⟩)
  | none => exact Or.inr (Or.inr rfl)
  | list xs => exact Or.inr (Or.inr rfl)
  | dict d2 => exact Or.inr (Or.inr rfl)

theorem highlightStep_ok (acc : List String) (v : PyVal) (h : falsyOrDict v = true) :
    ∃ r, highlightStep acc v = .ok r := by
  by_cases ht : pyTruthy v = false
  · exact ⟨acc, by rw [highlightStep, if_pos ht]; rfl⟩
  · obtain ⟨dd, rfl⟩ := falsyOrDict_elim v h ht
    rw [highlightStep, if_neg ht]
    rw [show pyContains (.dict dd) "title" = Except.ok (dd.any fun kv => kv.1 == "title") from rfl,
      exbind_ok]
    by_cases h1 : (dd.any fun kv => kv.1 == "title") = false
    · exact ⟨acc, by rw [if_pos h1]; rfl⟩
    · rw [if_neg h1]
      obtain ⟨tv, htv⟩ := dictGet_of_any dd "title"
        (by revert h1; cases dd.any fun kv => kv.1 == "title" <;> simp)
      rw [show pySubscript (.dict dd) "title" = (match dictGet dd "title" with
            | some x => Except.ok x | Option.none => Except.error PyErr.keyError) from rfl,
        htv, exbind_ok]
      show ∃ r, (if pyStrip (pyStrOf tv) ≠ "" then
            (Except.ok (acc ++ [pyStrip (pyStrOf tv)]) : Except PyErr (List String))
          else Except.ok acc) = Except.ok r
      split
      · exact ⟨_, rfl⟩
      · exact ⟨_, rfl⟩

theorem amenityItemStep_ok_or (acc : List String) (item : PyVal) :
    (∃ r, amenityItemStep acc item = .ok r) ∨ amenityItemStep acc item = .error .typeError := by
  cases item with
  | dict dd =>
    left
    rw [amenityItemStep]
    rw [show pyContains (.dict dd) "title" = Except.ok (dd.any fun kv => kv.1 == "title") from rfl,
      exbind_ok]
    by_cases h1 : (dd.any fun kv => kv.1 == "title") = false
    · exact ⟨acc, by rw [if_pos h1]; rfl⟩
    · rw [if_neg h1]
      obtain ⟨tv, htv⟩ := dictGet_of_any dd "title"
        (by revert h1; cases dd.any fun kv => kv.1 == "title" <;> simp)
      rw [show pySubscript (.dict dd) "title" = (match dictGet dd "title" with
            | some x => Except.ok x | Option.none => Except.error PyErr.keyError) from rfl,
        htv, exbind_ok]
      rw [show pyContains (.dict dd) "subtitle" = Except.ok (dd.any fun kv => kv.1 == "subtitle") from rfl,
        exbind_ok]
      by_cases h2 : (dd.any fun kv => kv.1 == "subtitle") = false
      · rw [show (dd.any fun kv => kv.1 == "subtitle") = false from h2]
        show ∃ r, (if pyStrip (pyStrOf tv) ≠ "" then
              (Except.ok (acc ++ [pyStrip (pyStrOf tv)]) : Except PyErr (List String))
            else Except.ok acc) = Except.ok r
        split
        · exact ⟨_, rfl⟩
        · exact ⟨_, rfl⟩
      · have h2' : (dd.any fun kv => kv.1 == "subtitle") = true := by
          revert h2; cases dd.any fun kv => kv.1 == "subtitle" <;> simp
        rw [h2']
        obtain ⟨sv, hsv⟩ := dictGet_of_any dd "subtitle" h2'
        rw [show pySubscript (.dict dd) "subtitle" = (match dictGet dd "subtitle" with
              | some x => Except.ok x | Option.none => Except.error PyErr.keyError) from rfl,
          hsv]
        show ∃ r, (if pyStrip (pyStrOf tv) ++ ": (" ++ pyStrip (pyStrOf sv) ++ ")" ≠ "" then
              (Except.ok (acc ++ [pyStrip (pyStrOf tv) ++ ": (" ++ pyStrip (pyStrOf sv) ++ ")"]) :
                Except PyErr (List String))
            else Except.ok acc) = Except.ok r
        split
        · exact ⟨_, rfl⟩
        · exact ⟨_, rfl⟩
  | str s =>
    rw [amenityItemStep]
    rw [show pyContains (.str s) "title" = Except.ok (subListOf "title".data s.data) from rfl,
      exbind_ok]
    by_cases h1 : subListOf "title".data s.data = false
    · exact Or.inl ⟨acc, by rw [if_pos h1]; rfl⟩
    · right
      rw [if_neg h1]
      rw [show pySubscript (.str s) "title" = Except.error PyErr.typeError from rfl, exbind_err]
      rfl
  | list xs =>
    rw [amenityItemStep]
    rw [show pyContains (.list xs) "title" =
          Except.ok (xs.any fun x => match x with | .str s => s == "title" | _ => false) from rfl,
      exbind_ok]
    by_cases h1 : (xs.any fun x => match x with | .str s => s == "title" | _ => false) = false
    · exact Or.inl ⟨acc, by rw [if_pos h1]; rfl⟩
    · right
      rw [if_neg h1]
      rw [show pySubscript (.list xs) "title" = Except.error PyErr.typeError from rfl, exbind_err]
      rfl
  | none => exact Or.inr rfl
  | bool b => exact Or.inr rfl
  | int n => exact Or.inr rfl
  | float m e => exact Or.inr rfl

theorem foldlM_amenityItemStep (xs : List PyVal) : ∀ acc,
    (∃ r, xs.foldlM amenityItemStep acc = .ok r) ∨
      xs.foldlM amenityItemStep acc = .error .typeError := by
  induction xs with
  | nil => exact fun acc => Or.inl ⟨acc, rfl⟩
  | cons x xs ih =>
    intro acc
    rcases amenityItemStep_ok_or acc x with ⟨r, hr⟩ | hr
    · rw [List.foldlM_cons, hr, exbind_ok]
      exact ih r
    · right
      rw [List.foldlM_cons, hr, exbind_err]

theorem amenityEntryVals_cases (dd : PyDict) (vv : PyVal) (hv : dictGet dd "values" = some vv) :
    (∃ r, amenityEntryVals (.dict dd) = .ok r) ∨
      amenityEntryVals (.dict dd) = .error .keyError ∨
      amenityEntryVals (.dict dd) = .error .typeError := by
  rw [amenityEntryVals]
  rw [show pySubscript (.dict dd) "values" = (match dictGet dd "values" with
        | some x => Except.ok x | Option.none => Except.error PyErr.keyError) from rfl, hv,
    exbind_ok]
  rcases pyIterate_cases vv with ⟨xs, hxs⟩ | hxs
  · rw [hxs, exbind_ok]
    rcases foldlM_amenityItemStep xs [] with h | h
    · exact Or.inl h
    · exact Or.inr (Or.inr h)
  · rw [hxs, exbind_err]
    exact Or.inr (Or.inr rfl)

theorem amenitiesStep_ok (acc : List (String × List String)) (v : PyVal)
    (h : falsyOrDict v = true) : ∃ r, amenitiesStep acc v = .ok r := by
  by_cases ht : pyTruthy v = false
  · exact ⟨acc, by rw [amenitiesStep, if_pos ht]; rfl⟩
  · obtain ⟨dd, rfl⟩ := falsyOrDict_elim v h ht
    rw [amenitiesStep, if_neg ht]
    rw [show pyContains (.dict dd) "title" = Except.ok (dd.any fun kv => kv.1 == "title") from rfl,
      exbind_ok]
    by_cases h1 : (dd.any fun kv => kv.1 == "title") = false
    · exact ⟨acc, by rw [if_pos h1]; rfl⟩
    · rw [if_neg h1]
      rw [show pyContains (.dict dd) "values" = Except.ok (dd.any fun kv => kv.1 == "values") from rfl,
        exbind_ok]
      by_cases h2 : (dd.any fun kv => kv.1 == "values") = false
      · exact ⟨acc, by rw [if_pos h2]; rfl⟩
      · rw [if_neg h2]
        obtain ⟨tv, htv⟩ := dictGet_of_any dd "title"
          (by revert h1; cases dd.any fun kv => kv.1 == "title" <;> simp)
        obtain ⟨vv, hvv⟩ := dictGet_of_any dd "values"
          (by revert h2; cases dd.any fun kv => kv.1 == "values" <;> simp)
        rw [show pySubscript (.dict dd) "title" = (match dictGet dd "title" with
              | some x => Except.ok x | Option.none => Except.error PyErr.keyError) from rfl,
          htv, exbind_ok]
        by_cases h3 : pyStrip (pyStrOf tv) = ""
        · exact ⟨acc, by rw [if_pos h3]; rfl⟩
        · rw [if_neg h3]
          rcases amenityEntryVals_cases dd vv hvv with ⟨vals, hvals⟩ | herr | herr
          · rw [hvals]
            dsimp only
            by_cases h4 : vals ≠ []
            · exact ⟨_, by rw [if_pos h4]; rfl⟩
            · exact ⟨acc, by rw [if_neg h4]; rfl⟩
          · exact ⟨acc, by rw [herr]; try rfl⟩
          · exact ⟨acc, by rw [herr]; try rfl⟩

theorem reviewStep_ok (acc : List PyVal) (v : PyVal) (h : safeReview v = true) :
    ∃ r, reviewStep acc v = .ok r := by
  by_cases ht : pyTruthy v = false
  · exact ⟨acc, by rw [reviewStep, if_pos ht]; rfl⟩
  · obtain ⟨rd, ls, rfl, hls⟩ := safeReview_elim v h ht
    rw [reviewStep, if_neg ht]
    rw [show pyContains (.dict rd) "comments" = Except.ok (rd.any fun kv => kv.1 == "comments") from rfl,
      exbind_ok]
    by_cases h1 : (rd.any fun kv => kv.1 == "comments") = false
    · exact ⟨acc, by rw [if_pos h1]; rfl⟩
    · rw [if_neg h1]
      rw [show pyContains (.dict rd) "rating" = Except.ok (rd.any fun kv => kv.1 == "rating") from rfl,
        exbind_ok]
      by_cases h2 : (rd.any fun kv => kv.1 == "rating") = false
      · exact ⟨acc, by rw [if_pos h2]; rfl⟩
      · rw [if_neg h2]
        rw [show pyGetMeth (.dict rd) "language" (.str "") =
              Except.ok (dictGetD rd "language" (.str "")) from rfl, hls, exbind_ok]
        rw [show pyLowerMeth (.str ls) = Except.ok (pyLower ls) from rfl, exbind_ok]
        by_cases h3 : pyLower ls ≠ "en"
        · exact ⟨acc, by rw [if_pos h3]; rfl⟩
        · rw [if_neg h3]
          by_cases h4 : acc.length ≥ 5
          · exact ⟨acc, by rw [if_pos h4]; rfl⟩
          · rw [if_neg h4]
            obtain ⟨cv, hcv⟩ := dictGet_of_any rd "comments"
              (by revert h1; cases rd.any fun kv => kv.1 == "comments" <;> simp)
            obtain ⟨rv, hrv⟩ := dictGet_of_any rd "rating"
              (by revert h2; cases rd.any fun kv => kv.1 == "rating" <;> simp)
            rw [show pySubscript (.dict rd) "comments" = (match dictGet rd "comments" with
                  | some x => Except.ok x | Option.none => Except.error PyErr.keyError) from rfl,
              hcv, exbind_ok]
            by_cases h5 : pyStrip (pyStrOf cv) = ""
            · exact ⟨acc, by rw [if_pos h5]; rfl⟩
            · rw [if_neg h5]
              rw [show pySubscript (.dict rd) "rating" = (match dictGet rd "rating" with
                    | some x => Except.ok x | Option.none => Except.error PyErr.keyError) from rfl,
                hrv, exbind_ok]
              rcases pyIntOf_cases rv with ⟨n, hn⟩ | ⟨m, hm⟩ | herr
              · rw [hn]
                dsimp only
                exact ⟨_, by
                  rw [show pyGetMeth (.dict rd) "localizedDate" (.str "") =
                        Except.ok (dictGetD rd "localizedDate" (.str "")) from rfl, exbind_ok]
                  try rfl⟩
              · exact ⟨acc, by rw [hm]; try rfl⟩
              · exact ⟨acc, by rw [herr]; try rfl⟩

theorem calculate_average_rating_ok (v : PyVal) (h : falsyOrDict v = true) :
    ∃ q, calculate_average_rating v = .ok q := by
  by_cases ht : pyTruthy v = false
  · exact ⟨0, by rw [calculate_average_rating.eq_def, if_pos ht]⟩
  · obtain ⟨dd, rfl⟩ := falsyOrDict_elim v h ht
    rw [calculate_average_rating.eq_def, if_neg ht]
    exact ⟨_, rfl⟩

theorem extract_house_rules_ok (v : PyVal) (h : falsyOrDict v = true) :
    ∃ r, extract_house_rules v = .ok r := by
  by_cases ht : pyTruthy v = false
  · exact ⟨⟨[], [], []⟩, by rw [extract_house_rules, if_pos ht]; rfl⟩
  · obtain ⟨dd, rfl⟩ := falsyOrDict_elim v h ht
    rw [extract_house_rules, if_neg ht]
    rw [show pyGetMeth (.dict dd) "additional" (.str "") =
          Except.ok (dictGetD dd "additional" (.str "")) from rfl, exbind_ok]
    rw [show pyGetMeth (.dict dd) "general" (.list []) =
          Except.ok (dictGetD dd "general" (.list [])) from rfl, exbind_ok]
    cases hg : dictGetD dd "general" (.list []) with
    | list groups => exact ⟨_, rfl⟩
    | none => exact ⟨_, rfl⟩
    | bool b => exact ⟨_, rfl⟩
    | int n => exact ⟨_, rfl⟩
    | float m e => exact ⟨_, rfl⟩
    | str s => exact ⟨_, rfl⟩
    | dict d2 => exact ⟨_, rfl⟩

theorem extract_amenities_ok (v : PyVal) (h : safeItems v = true) :
    ∃ r, extract_amenities v = .ok r := by
  by_cases ht : pyTruthy v = false
  · exact ⟨[], by rw [extract_amenities, if_pos ht]; rfl⟩
  · obtain ⟨xs, rfl, hall⟩ := safeItems_elim v h ht
    rw [extract_amenities, if_neg ht]
    rw [show pyIterate (.list xs) = Except.ok xs from rfl, exbind_ok]
    exact foldlM_ok amenitiesStep xs (fun a x hx => amenitiesStep_ok a x (hall x hx)) []

theorem extract_location_info_ok (v : PyVal) (h : safeItems v = true) :
    ∃ r, extract_location_info v = .ok r := by
  by_cases ht : pyTruthy v = false
  · exact ⟨("", ""), by rw [extract_location_info, if_pos ht]; rfl⟩
  · obtain ⟨xs, rfl, hall⟩ := safeItems_elim v h ht
    rw [extract_location_info, if_neg ht]
    rw [show pyIterate (.list xs) = Except.ok xs from rfl, exbind_ok]
    exact foldlM_ok locStep xs (fun a x hx => locStep_ok a x (hall x hx)) ("", "")

theorem extract_highlights_ok (v : PyVal) (h : safeItems v = true) :
    ∃ r, extract_highlights v = .ok r := by
  by_cases ht : pyTruthy v = false
  · exact ⟨[], by rw [extract_highlights, if_pos ht]; rfl⟩
  · obtain ⟨xs, rfl, hall⟩ := safeItems_elim v h ht
    rw [extract_highlights, if_neg ht]
    rw [show pyIterate (.list xs) = Except.ok xs from rfl, exbind_ok]
    exact foldlM_ok highlightStep xs (fun a x hx => highlightStep_ok a x (hall x hx)) []

theorem extract_reviews_summary_ok (v : PyVal) (h : safeReviews v = true) :
    ∃ r, extract_reviews_summary v = .ok r := by
  by_cases ht : pyTruthy v = false
  · exact ⟨[], by rw [extract_reviews_summary, if_pos ht]; rfl⟩
  · obtain ⟨xs, rfl, hall⟩ := safeReviews_elim v h ht
    rw [extract_reviews_summary, if_neg ht]
    rw [show pyIterate (.list xs) = Except.ok xs from rfl, exbind_ok]
    exact foldlM_ok reviewStep xs (fun a x hx => reviewStep_ok a x (hall x hx)) []

theorem expure {eps alpha : Type} (x : alpha) : (pure x : Except eps alpha) = Except.ok x := rfl

theorem exthrow {eps alpha : Type} (e : eps) : (throw e : Except eps alpha) = Except.error e := rfl

theorem extract_from_url_success (link : String) (i d : Int) (ci co : String) (a : Int)
    (h : extract_from_url link = .ok (i, d, ci, co, a)) :
    ∃ t1 t2, pyFromIso ci = some t1 ∧ pyFromIso co = some t2 ∧
      dtSeconds t1 < dtSeconds t2 ∧
      d = (dtSeconds t2 - dtSeconds t1).fdiv 86400 ∧ 0 ≤ d := by
  rw [extract_from_url] at h
  cases hm : matchRoomId link with
  | none =>
    simp only [hm, expure, exthrow, exbind_ok, exbind_err] at h
    exact Except.noConfusion h
  | some rid =>
    cases hci : searchParamValue "check_in=".data link.data with
    | none =>
      simp only [hm, hci, expure, exthrow, exbind_ok, exbind_err] at h
      exact Except.noConfusion h
    | some civ =>
      cases hco : searchParamValue "check_out=".data link.data with
      | none =>
        simp only [hm, hci, hco, expure, exthrow, exbind_ok, exbind_err] at h
        exact Except.noConfusion h
      | some cov =>
        cases ht1 : pyFromIso (String.mk civ) with
        | none =>
          simp only [hm, hci, hco, ht1, expure, exthrow, exbind_ok, exbind_err] at h
          exact Except.noConfusion h
        | some t1 =>
          cases ht2 : pyFromIso (String.mk cov) with
          | none =>
            simp only [hm, hci, hco, ht1, ht2, expure, exthrow, exbind_ok, exbind_err] at h
            exact Except.noConfusion h
          | some t2 =>
            simp only [hm, hci, hco, ht1, ht2, expure, exthrow, exbind_ok, exbind_err] at h
            by_cases hord : dtSeconds t2 ≤ dtSeconds t1
            · rw [if_pos hord] at h
              exact Except.noConfusion h
            · rw [if_neg hord] at h
              simp only [Except.ok.injEq, Prod.mk.injEq] at h
              obtain ⟨hi, hd, hci', hco', ha⟩ := h
              refine ⟨t1, t2, ?_, ?_, by omega, ?_, ?_⟩
              · rw [← hci']; exact ht1
              · rw [← hco']; exact ht2
              · exact hd.symm
              · rw [← hd]
                exact Int.fdiv_nonneg (by omega) (by norm_num)

theorem extract_from_url_order_error (link : String) (rid : Nat) (civ cov : List Char)
    (t1 t2 : PyDateTime)
    (hm : matchRoomId link = some rid)
    (hci : searchParamValue "check_in=".data link.data = some civ)
    (hco : searchParamValue "check_out=".data link.data = some cov)
    (ht1 : pyFromIso (String.mk civ) = some t1)
    (ht2 : pyFromIso (String.mk cov) = some t2)
    (hle : dtSeconds t2 ≤ dtSeconds t1) :
    extract_from_url link = .error "Check-out date must be after check-in date" := by
  rw [extract_from_url]
  simp only [hm, hci, hco, ht1, ht2, expure, exthrow, exbind_ok, exbind_err]
  rw [if_pos hle]

theorem validate_characterization (d : PyDict) :
    validate_listing_data d = true ↔
      (d ≠ [] ∧
       (∃ i, dictGet d "id" = some i ∧ isinstance_int i = true ∧ 0 < pyNumVal i) ∧
       (∃ s, dictGet d "url" = some (.str s) ∧ pyStrip s ≠ "") ∧
       (∃ c, dictGet d "cost" = some c ∧ isinstance_num c = true ∧ 0 ≤ pyNumVal c)) := by
  constructor
  · intro h
    rw [validate_listing_data] at h
    by_cases hd : d.isEmpty = true
    · rw [if_pos hd] at h; exact Bool.noConfusion h
    · rw [if_neg hd] at h
      cases hid : dictGet d "id" with
      | none =>
        exfalso
        have hmem : "id" ∈ (REQUIRED_LISTING_FIELDS.filter fun f => (dictGet d f).isNone) :=
          List.mem_filter.mpr ⟨by simp [REQUIRED_LISTING_FIELDS], by simp [hid]⟩
        have hfe : (REQUIRED_LISTING_FIELDS.filter fun f => (dictGet d f).isNone).isEmpty = false := by
          simpa [List.isEmpty_iff] using List.ne_nil_of_mem hmem
        rw [if_pos (by simp [hfe])] at h
        exact Bool.noConfusion h
      | some i =>
        cases hurl : dictGet d "url" with
        | none =>
          exfalso
          have hmem : "url" ∈ (REQUIRED_LISTING_FIELDS.filter fun f => (dictGet d f).isNone) :=
            List.mem_filter.mpr ⟨by simp [REQUIRED_LISTING_FIELDS], by simp [hurl]⟩
          have hfe : (REQUIRED_LISTING_FIELDS.filter fun f => (dictGet d f).isNone).isEmpty = false := by
            simpa [List.isEmpty_iff] using List.ne_nil_of_mem hmem
          rw [if_pos (by simp [hfe])] at h
          exact Bool.noConfusion h
        | some u =>
          cases hcost : dictGet d "cost" with
          | none =>
            exfalso
            have hmem : "cost" ∈ (REQUIRED_LISTING_FIELDS.filter fun f => (dictGet d f).isNone) :=
              List.mem_filter.mpr ⟨by simp [REQUIRED_LISTING_FIELDS], by simp [hcost]⟩
            have hfe : (REQUIRED_LISTING_FIELDS.filter fun f => (dictGet d f).isNone).isEmpty = false := by
              simpa [List.isEmpty_iff] using List.ne_nil_of_mem hmem
            rw [if_pos (by simp [hfe])] at h
            exact Bool.noConfusion h
          | some c =>
            have hfil : (REQUIRED_LISTING_FIELDS.filter fun f => (dictGet d f).isNone) = [] := by
              simp [REQUIRED_LISTING_FIELDS, List.filter_cons, hid, hurl, hcost]
            rw [if_neg (by simp [hfil]), hid] at h
            simp only [Option.getD_some] at h
            by_cases hc1 : ¬ isinstance_int i = true ∨ pyNumVal i ≤ 0
            · rw [if_pos hc1] at h; exact Bool.noConfusion h
            · rw [if_neg hc1] at h
              cases u with
              | str s =>
                rw [hurl] at h
                simp only [Option.getD_some] at h
                by_cases hs : pyStrip s = ""
                · rw [if_pos hs] at h; exact Bool.noConfusion h
                · rw [if_neg hs, hcost] at h
                  simp only [Option.getD_some] at h
                  by_cases hc2 : ¬ isinstance_num c = true ∨ pyNumVal c < 0
                  · rw [if_pos hc2] at h; exact Bool.noConfusion h
                  · push_neg at hc1 hc2
                    exact ⟨by simpa [List.isEmpty_iff] using hd,
                           ⟨i, rfl, by simpa using hc1.1, hc1.2⟩,
                           ⟨s, rfl, hs⟩,
                           ⟨c, rfl, by simpa using hc2.1, hc2.2⟩⟩
              | none =>
                rw [hurl] at h
                simp only [Option.getD_some] at h
                exact Bool.noConfusion h
              | bool b =>
                rw [hurl] at h
                simp only [Option.getD_some] at h
                exact Bool.noConfusion h
              | int n =>
                rw [hurl] at h
                simp only [Option.getD_some] at h
                exact Bool.noConfusion h
              | float m e =>
                rw [hurl] at h
                simp only [Option.getD_some] at h
                exact Bool.noConfusion h
              | list xs =>
                rw [hurl] at h
                simp only [Option.getD_some] at h
                exact Bool.noConfusion h
              | dict d2 =>
                rw [hurl] at h
                simp only [Option.getD_some] at h
                exact Bool.noConfusion h
  · rintro ⟨hd, ⟨i, hid, hint, hipos⟩, ⟨s, hurl, hs⟩, ⟨c, hcost, hnum, hcnn⟩⟩
    rw [validate_listing_data]
    rw [if_neg (by simpa [List.isEmpty_iff] using hd)]
    have hfil : (REQUIRED_LISTING_FIELDS.filter fun f => (dictGet d f).isNone) = [] := by
      simp [REQUIRED_LISTING_FIELDS, List.filter_cons, hid, hurl, hcost]
    rw [if_neg (by simp [hfil]), hid]
    simp only [Option.getD_some]
    rw [if_neg (not_or.mpr ⟨fun hni => hni hint, not_le.mpr hipos⟩), hurl]
    simp only [Option.getD_some]
    rw [if_neg hs, hcost]
    simp only [Option.getD_some]
    rw [if_neg (not_or.mpr ⟨fun hnn => hnn hnum, not_lt.mpr hcnn⟩)]

theorem validRatings_review_count (v : PyVal) (entries : PyDict) :
    validRatings (("review_count", v) :: entries) = validRatings entries := by
  rw [validRatings, List.filterMap_cons]
  rfl

theorem validRatings_keep (k : String) (v : PyVal) (q : ℚ) (entries : PyDict)
    (hk : k ≠ "review_count") (hq : ratingValue v = some q) (h0 : 0 ≤ q) (h10 : q ≤ 10) :
    validRatings ((k, v) :: entries) = q :: validRatings entries := by
  rw [validRatings, List.filterMap_cons]
  dsimp only
  rw [if_neg hk, hq]
  dsimp only
  rw [if_pos ⟨h0, h10⟩]
  rfl

theorem validRatings_skip_out_of_range (k : String) (v : PyVal) (q : ℚ) (entries : PyDict)
    (hq : ratingValue v = some q) (hout : ¬ (0 ≤ q ∧ q ≤ 10)) :
    validRatings ((k, v) :: entries) = validRatings entries := by
  rw [validRatings, List.filterMap_cons]
  dsimp only
  by_cases hk : k = "review_count"
  · rw [if_pos hk]
    rfl
  · rw [if_neg hk, hq]
    dsimp only
    rw [if_neg hout]
    rfl

theorem validRatings_skip_non_numeric (k : String) (v : PyVal) (entries : PyDict)
    (hq : ratingValue v = Option.none) :
    validRatings ((k, v) :: entries) = validRatings entries := by
  rw [validRatings, List.filterMap_cons]
  dsimp only
  by_cases hk : k = "review_count"
  · rw [if_pos hk]
    rfl
  · rw [if_neg hk, hq]
    rfl

theorem calculate_average_rating_dict (entries : PyDict) (hne : entries ≠ []) :
    calculate_average_rating (.dict entries) =
      .ok (if (validRatings entries).isEmpty then 0
           else pyRound2 ((validRatings entries).sum / ((validRatings entries).length : ℚ))) := by
  rw [calculate_average_rating.eq_def,
    if_neg (by simpa [pyTruthy, List.isEmpty_iff] using hne)]

/-! ## Claim theorems -/

/-- C1 (amended): the validator returns `True` exactly when the record is a
non-empty dict whose `id` is a positive int, whose `url` is a non-blank
string and whose `cost` is a non-negative number — `duration` is *not*
required (`REQUIRED_LISTING_FIELDS` is `["id", "url", "cost"]`); being a
total Bool function, it never raises. -/
theorem C1_validator_fields (d : PyDict) :
    validate_listing_data d = true ↔
      (d ≠ [] ∧
       (∃ i, dictGet d "id" = some i ∧ isinstance_int i = true ∧ 0 < pyNumVal i) ∧
       (∃ s, dictGet d "url" = some (.str s) ∧ pyStrip s ≠ "") ∧
       (∃ c, dictGet d "cost" = some c ∧ isinstance_num c = true ∧ 0 ≤ pyNumVal c)) :=
  validate_characterization d

/-- C1 counterexample: a record with valid `id`, `url` and `cost` but no
`duration` key at all still validates, refuting "for every record lacking a
valid duration, validate_listing_data returns False". -/
theorem C1_counterexample :
    validate_listing_data [("id", .int 1), ("url", .str "u"), ("cost", .int 0)] = true ∧
      dictGet [("id", .int 1), ("url", .str "u"), ("cost", .int 0)] "duration" = Option.none :=
  ⟨rfl, rfl⟩

/-- C2 (amended): on the two-block example the extractor yields
`("Great area", "Take metro\nWalk 5 min")` — the *content* of the first
block, not its title `"Downtown"`; in general a block titled (after
lower-casing and stripping) "getting around" populates the second
component, "neighbourhood highlights" populates the first, an untitled
block fills an empty first component with its non-empty cleaned content,
a non-empty first component is never overwritten, and cleaning converts
`<br />` to a newline and `&nbsp;` to a space. -/
theorem C2_location_info :
    (extract_location_info (.list
        [.dict [("title", .str "Downtown"), ("content", .str "Great area")],
         .dict [("title", .str "Getting Around"), ("content", .str "Take metro<br />Walk 5 min")]]) =
      .ok ("Great area", "Take metro\nWalk 5 min")) ∧
    (∀ (st : String × String) (t c : String),
       pyStrip (pyLower t) = "getting around" →
       locStep st (.dict [("title", .str t), ("content", .str c)]) =
         .ok (st.1, _clean_html_content c)) ∧
    (∀ (st : String × String) (t c : String),
       pyStrip (pyLower t) = "neighbourhood highlights" →
       locStep st (.dict [("title", .str t), ("content", .str c)]) =
         .ok (_clean_html_content c, st.2)) ∧
    (∀ (st : String × String) (t c : String),
       pyStrip (pyLower t) ≠ "getting around" →
       pyStrip (pyLower t) ≠ "neighbourhood highlights" →
       st.1 = "" → _clean_html_content c ≠ "" →
       locStep st (.dict [("title", .str t), ("content", .str c)]) =
         .ok (_clean_html_content c, st.2)) ∧
    (∀ (st : String × String) (t c : String),
       pyStrip (pyLower t) ≠ "getting around" →
       pyStrip (pyLower t) ≠ "neighbourhood highlights" →
       st.1 ≠ "" →
       locStep st (.dict [("title", .str t), ("content", .str c)]) = .ok st) ∧
    (_clean_html_content "Take metro<br />Walk 5 min" = "Take metro\nWalk 5 min" ∧
     _clean_html_content "a&nbsp;b" = "a b") := by
  refine ⟨rfl, ?_, ?_, ?_, ?_, rfl, rfl⟩
  · intro st t c h
    have hred : locStep st (.dict [("title", .str t), ("content", .str c)]) =
        (if pyStrip (pyLower t) = "getting around" then .ok (st.1, _clean_html_content c)
         else if pyStrip (pyLower t) = "neighbourhood highlights" then
           .ok (_clean_html_content c, st.2)
         else if st.1 = "" ∧ _clean_html_content c ≠ "" then .ok (_clean_html_content c, st.2)
         else .ok st) := rfl
    rw [hred, if_pos h]
  · intro st t c h
    have hred : locStep st (.dict [("title", .str t), ("content", .str c)]) =
        (if pyStrip (pyLower t) = "getting around" then .ok (st.1, _clean_html_content c)
         else if pyStrip (pyLower t) = "neighbourhood highlights" then
           .ok (_clean_html_content c, st.2)
         else if st.1 = "" ∧ _clean_html_content c ≠ "" then .ok (_clean_html_content c, st.2)
         else .ok st) := rfl
    rw [hred, if_neg (by rw [h]; decide), if_pos h]
  · intro st t c h1 h2 h3 h4
    have hred : locStep st (.dict [("title", .str t), ("content", .str c)]) =
        (if pyStrip (pyLower t) = "getting around" then .ok (st.1, _clean_html_content c)
         else if pyStrip (pyLower t) = "neighbourhood highlights" then
           .ok (_clean_html_content c, st.2)
         else if st.1 = "" ∧ _clean_html_content c ≠ "" then .ok (_clean_html_content c, st.2)
         else .ok st) := rfl
    rw [hred, if_neg h1, if_neg h2, if_pos ⟨h3, h4⟩]
  · intro st t c h1 h2 h3
    have hred : locStep st (.dict [("title", .str t), ("content", .str c)]) =
        (if pyStrip (pyLower t) = "getting around" then .ok (st.1, _clean_html_content c)
         else if pyStrip (pyLower t) = "neighbourhood highlights" then
           .ok (_clean_html_content c, st.2)
         else if st.1 = "" ∧ _clean_html_content c ≠ "" then .ok (_clean_html_content c, st.2)
         else .ok st) := rfl
    rw [hred, if_neg h1, if_neg h2, if_neg (fun hc => h3 hc.1)]

/-- C2 counterexample: the spec's example output names the block *title*
`"Downtown"` as the extracted location, but the code stores the block's
*content*: the extractor returns `"Great area"`, which is not
`"Downtown"`. -/
theorem C2_counterexample :
    extract_location_info (.list
        [.dict [("title", .str "Downtown"), ("content", .str "Great area")],
         .dict [("title", .str "Getting Around"), ("content", .str "Take metro<br />Walk 5 min")]]) =
      .ok ("Great area", "Take metro\nWalk 5 min") ∧ "Great area" ≠ "Downtown" :=
  ⟨rfl, by decide⟩

/-- C2 witness: the four general location rules applied at concrete blocks. -/
theorem C2_witness :
    locStep ("a", "b") (.dict [("title", .str "Getting Around"), ("content", .str "x<br />y")]) =
      .ok (("a", "b").1, _clean_html_content "x<br />y") ∧
    locStep ("a", "b") (.dict [("title", .str "Neighbourhood Highlights"), ("content", .str "z")]) =
      .ok (_clean_html_content "z", ("a", "b").2) ∧
    locStep ("", "b") (.dict [("title", .str "Downtown"), ("content", .str "Great area")]) =
      .ok (_clean_html_content "Great area", ("", "b").2) ∧
    locStep ("keep", "b") (.dict [("title", .str "Other"), ("content", .str "new")]) =
      .ok ("keep", "b") :=
  ⟨C2_location_info.2.1 ("a", "b") "Getting Around" "x<br />y" rfl,
   C2_location_info.2.2.1 ("a", "b") "Neighbourhood Highlights" "z" rfl,
   C2_location_info.2.2.2.1 ("", "b") "Downtown" "Great area" (by decide) (by decide) rfl
     (by decide),
   C2_location_info.2.2.2.2.1 ("keep", "b") "Other" "new" (by decide) (by decide) (by decide)⟩

/-- C3 (amended): under the orchestrator's argument guards, normalization
succeeds whenever each sub-section has a shape the extractors absorb:
`person_capacity` int-convertible, `rating` and `house_rules` falsy or
dicts, `amenities`/`location_descriptions`/`highlights` falsy or lists
of falsy-or-dict entries, and `reviews` falsy or a list of falsy entries
and dicts whose `language` value is a string.  Outside these shapes the
orchestrator *can* raise (see the counterexample), so damage is absorbed
only section-locally, not unconditionally. -/
theorem C3_degradation (data : PyDict) (listing_id : Int) (link : String) (stay_length : Int)
    (h1 : data ≠ []) (h2 : 0 < listing_id) (h3 : pyStrip link ≠ "") (h4 : 0 < stay_length)
    (hcap : ∃ n, pyIntOf (dictGetD data "person_capacity" (.int 0)) = .ok n)
    (hrat : falsyOrDict (dictGetD data "rating" (.dict [])) = true)
    (hhr : falsyOrDict (dictGetD data "house_rules" (.dict [])) = true)
    (ham : safeItems (dictGetD data "amenities" (.list [])) = true)
    (hloc : safeItems (dictGetD data "location_descriptions" (.list [])) = true)
    (hhi : safeItems (dictGetD data "highlights" (.list [])) = true)
    (hrev : safeReviews (dictGetD data "reviews" (.list [])) = true) :
    ∃ rec, process_listing_data data listing_id link stay_length = .ok rec := by
  obtain ⟨cap, hcap'⟩ := hcap
  obtain ⟨q, hq⟩ := calculate_average_rating_ok _ hrat
  obtain ⟨hr, hhr'⟩ := extract_house_rules_ok _ hhr
  obtain ⟨am, ham'⟩ := extract_amenities_ok _ ham
  obtain ⟨li, hli⟩ := extract_location_info_ok _ hloc
  obtain ⟨hi, hhi'⟩ := extract_highlights_ok _ hhi
  obtain ⟨rv, hrv⟩ := extract_reviews_summary_ok _ hrev
  rw [process_listing_data]
  rw [if_neg (by simpa using h1), if_neg (by omega), if_neg h3, if_neg (by omega)]
  rw [hcap', hq, hhr', ham', hli, hhi', hrv]
  exact ⟨_, rfl⟩

/-- C3 counterexample: a payload whose only damage is a non-numeric
`person_capacity` string aborts the whole normalization with a
`ValueError` instead of degrading to a default, refuting "one damaged
sub-section never aborts the whole normalization". -/
theorem C3_counterexample :
    process_listing_data [("person_capacity", .str "abc")] 1 "x" 1 =
      .error (.valueError "invalid literal for int") := rfl

/-- C3 witness: a payload with several degenerate-but-absorbable
sub-sections normalizes successfully. -/
theorem C3_witness :
    ∃ rec, process_listing_data
      [("person_capacity", .str "7"), ("rating", .int 0), ("house_rules", PyVal.none),
       ("amenities", .list [PyVal.none, .dict []]), ("location_descriptions", .list []),
       ("highlights", .str ""), ("reviews", .list [.dict [("language", .str "en")]])]
      1 "u" 2 = .ok rec :=
  C3_degradation _ 1 "u" 2 (List.cons_ne_nil _ _) (by decide) (by decide) (by decide)
    ⟨7, rfl⟩ rfl rfl rfl rfl rfl rfl

/-- C4 (amended): for every URL the parser accepts, the returned duration
is `timedelta.days` of the parsed datetimes — the floor of the second
difference over 86400 — which is non-negative but *not* always strictly
positive (time-of-day-bearing ISO datetimes less than a day apart give
0); and whenever check-out is not strictly after check-in the parser
fails with the date-order `ValueError`. -/
theorem C4_duration :
    (∀ (link : String) (i d : Int) (ci co : String) (a : Int),
       extract_from_url link = .ok (i, d, ci, co, a) →
       ∃ t1 t2, pyFromIso ci = some t1 ∧ pyFromIso co = some t2 ∧
         dtSeconds t1 < dtSeconds t2 ∧
         d = (dtSeconds t2 - dtSeconds t1).fdiv 86400 ∧ 0 ≤ d) ∧
    (∀ (link : String) (rid : Nat) (civ cov : List Char) (t1 t2 : PyDateTime),
       matchRoomId link = some rid →
       searchParamValue "check_in=".data link.data = some civ →
       searchParamValue "check_out=".data link.data = some cov →
       pyFromIso (String.mk civ) = some t1 →
       pyFromIso (String.mk cov) = some t2 →
       dtSeconds t2 ≤ dtSeconds t1 →
       extract_from_url link = .error "Check-out date must be after check-in date") :=
  ⟨extract_from_url_success, extract_from_url_order_error⟩

/-- C4 counterexample: a URL with check-out one day after check-in by
calendar date but two hours after by time is accepted with duration 0,
refuting "the stay duration ... is always strictly positive". -/
theorem C4_counterexample :
    extract_from_url
        "https://www.airbnb.com/rooms/123?check_in=2024-01-15T23:00&check_out=2024-01-16T01:00&adults=2" =
      .ok (123, 0, "2024-01-15T23:00", "2024-01-16T01:00", 2) ∧ ¬ ((0 : Int) > 0) :=
  ⟨rfl, by decide⟩

/-- C4 witness: the duration law applied to an accepted five-night URL,
and the order error at a URL whose check-out precedes its check-in. -/
theorem C4_witness :
    (∃ t1 t2, pyFromIso "2024-01-15" = some t1 ∧ pyFromIso "2024-01-20" = some t2 ∧
       dtSeconds t1 < dtSeconds t2 ∧
       (5 : Int) = (dtSeconds t2 - dtSeconds t1).fdiv 86400 ∧ (0 : Int) ≤ 5) ∧
    extract_from_url
        "https://www.airbnb.com/rooms/7?check_in=2024-01-20&check_out=2024-01-15&adults=1" =
      .error "Check-out date must be after check-in date" :=
  ⟨C4_duration.1
      "https://www.airbnb.com/rooms/12345?check_in=2024-01-15&check_out=2024-01-20&adults=2"
      12345 5 "2024-01-15" "2024-01-20" 2 rfl,
   C4_duration.2
      "https://www.airbnb.com/rooms/7?check_in=2024-01-20&check_out=2024-01-15&adults=1"
      7 "2024-01-20".data "2024-01-15".data
      ⟨daysFromCivil 2024 1 20, 0⟩ ⟨daysFromCivil 2024 1 15, 0⟩
      rfl rfl rfl rfl rfl (by decide)⟩

/-- C5: putting a record with a bindable `id` and then getting that id
returns the record unchanged; the put replaces any previous row with the
same key wholesale (the stored row is exactly the new serialized record)
and leaves every other key untouched. -/
theorem C5_roundtrip (st : Store) (d : PyDict) (idv : PyVal) (key : Int) (u : Option String)
    (hid : dictGet d "id" = some idv) (hkey : sqlIntKey idv = .ok key)
    (hurl : sqlTextBind (dictGet d "url") = .ok u) (hwf : wfVal (.dict d) = true) :
    ∃ st', add_entry st d = .ok st' ∧
      get_listing st' key = .ok (some (.dict d)) ∧
      findRow st' key = some ⟨key, u, dumps (.dict d)⟩ ∧
      ∀ k, k ≠ key → findRow st' k = findRow st k :=
  ⟨upsertRow st ⟨key, u, dumps (.dict d)⟩,
   add_entry_eq st d idv key u hid hkey hurl,
   get_listing_upsert st key u d hwf,
   findRow_upsert_self st ⟨key, u, dumps (.dict d)⟩,
   fun k hk => findRow_upsert_other st ⟨key, u, dumps (.dict d)⟩ k hk⟩

/-- C5 witness: the round trip and wholesale replacement at a concrete
store already holding a different document under the same id. -/
theorem C5_witness :
    ∃ st', add_entry [⟨1, Option.none, "old"⟩]
        [("id", .int 1), ("url", .str "u"), ("cost", .int 5)] = .ok st' ∧
      get_listing st' 1 =
        .ok (some (.dict [("id", .int 1), ("url", .str "u"), ("cost", .int 5)])) ∧
      findRow st' 1 = some ⟨1, some "u",
        dumps (.dict [("id", .int 1), ("url", .str "u"), ("cost", .int 5)])⟩ ∧
      ∀ k, k ≠ 1 → findRow st' k = findRow [⟨1, Option.none, "old"⟩] k :=
  C5_roundtrip [⟨1, Option.none, "old"⟩]
    [("id", .int 1), ("url", .str "u"), ("cost", .int 5)]
    (.int 1) 1 (some "u") rfl rfl rfl rfl

/-- C6: price extraction prefers the extracted discounted value exactly
when it is positive, otherwise falls back to the regular value; the
documented slice gives 80; and a string with no numeric run gives 0. -/
theorem C6_price :
    (extract_price [("price", .dict [("main",
        .dict [("discountedPrice", .str "$80"), ("price", .str "$100")])])] = 80) ∧
    (∀ (m : PyDict) (dp rp : PyVal),
       dictGet m "discountedPrice" = some dp → dictGet m "price" = some rp →
       isStrIntFloat dp = true → isStrIntFloat rp = true →
       extract_price [("price", .dict [("main", .dict m)])] =
         if _extract_numeric_price dp > 0 then _extract_numeric_price dp
         else _extract_numeric_price rp) ∧
    (∀ s : String, firstNumRun s.data = Option.none → _extract_numeric_price (.str s) = 0) := by
  refine ⟨?_, ?_, ?_⟩
  · have hc : extract_price [("price", .dict [("main",
        .dict [("discountedPrice", .str "$80"), ("price", .str "$100")])])] =
        if _extract_numeric_price (.str "$80") > 0 then _extract_numeric_price (.str "$80")
        else _extract_numeric_price (.str "$100") := rfl
    have h80 : _extract_numeric_price (.str "$80") =
        1 * (((80 : Nat) : ℚ) + ((0 : Nat) : ℚ) / (10 : ℚ) ^ (0 : Nat)) *
          (10 : ℚ) ^ ((0 : Int)) := rfl
    rw [hc, h80]
    norm_num
  · intro m dp rp h1 h2 h3 h4
    have hred : extract_price [("price", .dict [("main", .dict m)])] =
        (if _extract_numeric_price (if isStrIntFloat (dictGetD m "discountedPrice" (.str ""))
              then dictGetD m "discountedPrice" (.str "") else .str "") > 0
         then _extract_numeric_price (if isStrIntFloat (dictGetD m "discountedPrice" (.str ""))
              then dictGetD m "discountedPrice" (.str "") else .str "")
         else _extract_numeric_price (if isStrIntFloat (dictGetD m "price" (.str ""))
              then dictGetD m "price" (.str "") else .str "")) := rfl
    rw [hred]
    rw [show dictGetD m "discountedPrice" (.str "") = dp from by rw [dictGetD, h1]; rfl]
    rw [show dictGetD m "price" (.str "") = rp from by rw [dictGetD, h2]; rfl]
    rw [if_pos h3, if_pos h4]
  · intro s h
    rw [_extract_numeric_price.eq_def]
    split
    · rfl
    · rw [show pyStrOf (PyVal.str s) = s from rfl, h]

/-- C6 witness: the preference law at a slice whose discounted value is 0,
and the no-numeric-run default at a concrete string. -/
theorem C6_witness :
    (extract_price [("price", .dict [("main",
        .dict [("discountedPrice", .str "0"), ("price", .int 25)])])] =
      if _extract_numeric_price (.str "0") > 0 then _extract_numeric_price (.str "0")
      else _extract_numeric_price (.int 25)) ∧
    _extract_numeric_price (.str "abc") = 0 :=
  ⟨C6_price.2.1 [("discountedPrice", .str "0"), ("price", .int 25)]
      (.str "0") (.int 25) rfl rfl rfl rfl,
   C6_price.2.2 "abc" rfl⟩

/-- C7: the rating average uses exactly the non-`review_count` entries
whose values convert to numbers in `[0, 10]` (strings parsed, bools and
ints and floats converted, out-of-range and non-numeric values dropped),
rounded to two decimals; any mapping with no valid entry left — in
particular one holding only `review_count` — gives 0. -/
theorem C7_rating :
    (∀ v, calculate_average_rating (.dict [("review_count", v)]) = .ok 0) ∧
    (∀ entries : PyDict, entries ≠ [] → validRatings entries = [] →
       calculate_average_rating (.dict entries) = .ok 0) ∧
    (∀ entries : PyDict, entries ≠ [] → validRatings entries ≠ [] →
       calculate_average_rating (.dict entries) =
         .ok (pyRound2 ((validRatings entries).sum / ((validRatings entries).length : ℚ)))) ∧
    (∀ (v : PyVal) (entries : PyDict),
       validRatings (("review_count", v) :: entries) = validRatings entries) ∧
    (∀ (k : String) (v : PyVal) (q : ℚ) (entries : PyDict),
       k ≠ "review_count" → ratingValue v = some q → 0 ≤ q → q ≤ 10 →
       validRatings ((k, v) :: entries) = q :: validRatings entries) ∧
    (∀ (k : String) (v : PyVal) (q : ℚ) (entries : PyDict),
       ratingValue v = some q → ¬ (0 ≤ q ∧ q ≤ 10) →
       validRatings ((k, v) :: entries) = validRatings entries) ∧
    (∀ (k : String) (v : PyVal) (entries : PyDict), ratingValue v = Option.none →
       validRatings ((k, v) :: entries) = validRatings entries) ∧
    (calculate_average_rating (.dict
        [("overall", .int 4), ("value", .int 5), ("review_count", .int 100)]) = .ok (9 / 2)) := by
  refine ⟨fun v => rfl, ?_, ?_, validRatings_review_count, validRatings_keep,
    validRatings_skip_out_of_range, validRatings_skip_non_numeric, ?_⟩
  · intro entries hne hval
    rw [calculate_average_rating_dict entries hne, hval]
    rfl
  · intro entries hne hval
    rw [calculate_average_rating_dict entries hne,
      if_neg (by simpa [List.isEmpty_iff] using hval)]
  · have hc : calculate_average_rating (.dict
        [("overall", .int 4), ("value", .int 5), ("review_count", .int 100)]) =
        .ok (pyRound2 ((((4 : Int) : ℚ) + (((5 : Int) : ℚ) + 0)) / ((2 : Nat) : ℚ))) := rfl
    rw [hc]
    unfold pyRound2 roundHalfEven
    norm_num

/-- C7 witness: the general average and filter laws applied at concrete
mappings (an out-of-range 11, a kept 7, a skipped non-numeric value and a
skipped review-count entry). -/
theorem C7_witness :
    (calculate_average_rating (.dict [("a", .int 11)]) = .ok 0) ∧
    (calculate_average_rating (.dict [("b", .int 7)]) =
      .ok (pyRound2 ((validRatings [("b", .int 7)]).sum /
        ((validRatings [("b", .int 7)]).length : ℚ)))) ∧
    (validRatings [("b", .int 7)] = ((7 : Int) : ℚ) :: validRatings []) ∧
    (validRatings [("c", .int 11)] = validRatings []) ∧
    (validRatings [("d", PyVal.none)] = validRatings []) :=
  ⟨C7_rating.2.1 [("a", .int 11)] (List.cons_ne_nil _ _) rfl,
   C7_rating.2.2.1 [("b", .int 7)] (List.cons_ne_nil _ _) (by decide),
   C7_rating.2.2.2.2.1 "b" (.int 7) ((7 : Int) : ℚ) [] (by decide) rfl (by decide) (by decide),
   C7_rating.2.2.2.2.2.1 "c" (.int 11) ((11 : Int) : ℚ) [] rfl (by decide),
   C7_rating.2.2.2.2.2.2.1 "d" PyVal.none [] rfl⟩

/-- C8: each argument guard of the orchestrator fires with its
`ValueError` before any extraction result can influence the outcome —
an empty payload, a non-positive listing id, a blank url and a
non-positive stay length are rejected in that order, and the monadic
body below the guards is never consulted. -/
theorem C8_guards :
    (∀ (listing_id stay_length : Int) (link : String),
       process_listing_data [] listing_id link stay_length =
         .error (.valueError "Data must be a non-empty dictionary")) ∧
    (∀ (data : PyDict) (listing_id stay_length : Int) (link : String),
       data ≠ [] → listing_id ≤ 0 →
       process_listing_data data listing_id link stay_length =
         .error (.valueError "Listing ID must be a positive integer")) ∧
    (∀ (data : PyDict) (listing_id stay_length : Int) (link : String),
       data ≠ [] → 0 < listing_id → pyStrip link = "" →
       process_listing_data data listing_id link stay_length =
         .error (.valueError "Link must be a non-empty string")) ∧
    (∀ (data : PyDict) (listing_id stay_length : Int) (link : String),
       data ≠ [] → 0 < listing_id → pyStrip link ≠ "" → stay_length ≤ 0 →
       process_listing_data data listing_id link stay_length =
         .error (.valueError "Stay length must be a positive integer")) := by
  refine ⟨fun _ _ _ => rfl, ?_, ?_, ?_⟩
  · intro data listing_id stay_length link h1 h2
    rw [process_listing_data, if_neg (by simpa using h1), if_pos h2]
    rfl
  · intro data listing_id stay_length link h1 h2 h3
    rw [process_listing_data, if_neg (by simpa using h1), if_neg (by omega), if_pos h3]
    rfl
  · intro data listing_id stay_length link h1 h2 h3 h4
    rw [process_listing_data, if_neg (by simpa using h1), if_neg (by omega), if_neg h3,
      if_pos h4]
    rfl

/-- C8 witness: the four guards fired at concrete invalid arguments. -/
theorem C8_witness :
    process_listing_data [] 1 "u" 1 =
      .error (.valueError "Data must be a non-empty dictionary") ∧
    process_listing_data [("a", PyVal.none)] 0 "u" 1 =
      .error (.valueError "Listing ID must be a positive integer") ∧
    process_listing_data [("a", PyVal.none)] 1 " " 1 =
      .error (.valueError "Link must be a non-empty string") ∧
    process_listing_data [("a", PyVal.none)] 1 "u" 0 =
      .error (.valueError "Stay length must be a positive integer") :=
  ⟨C8_guards.1 1 1 "u",
   C8_guards.2.1 [("a", PyVal.none)] 0 1 "u" (List.cons_ne_nil _ _) (by decide),
   C8_guards.2.2.1 [("a", PyVal.none)] 1 1 " " (List.cons_ne_nil _ _) (by decide) rfl,
   C8_guards.2.2.2 [("a", PyVal.none)] 1 0 "u" (List.cons_ne_nil _ _) (by decide)
     (by decide) (by decide)⟩

/-- C9: updating the cost of a stored listing rewrites exactly the `cost`
field of the stored document (the rest round-trips unchanged), returns
`True`, and touches no other key; updating an absent id returns `False`
and leaves the store untouched. -/
theorem C9_update :
    (∀ (st : Store) (listing_id new_cost : Int) (row : DbRow) (d : PyDict) (idv : PyVal)
        (u : Option String),
       findRow st listing_id = some row →
       loads row.json = some (.dict d) →
       dictGet d "id" = some idv →
       sqlIntKey idv = .ok listing_id →
       sqlTextBind (dictGet d "url") = .ok u →
       wfVal (.dict d) = true →
       (update_listing_costs st listing_id new_cost).1 = true ∧
       get_listing (update_listing_costs st listing_id new_cost).2 listing_id =
         .ok (some (.dict (dictSet d "cost" (.int new_cost)))) ∧
       (∀ k, k ≠ listing_id →
          findRow (update_listing_costs st listing_id new_cost).2 k = findRow st k)) ∧
    (∀ (st : Store) (listing_id new_cost : Int),
       findRow st listing_id = Option.none →
       update_listing_costs st listing_id new_cost = (false, st)) := by
  constructor
  · intro st listing_id new_cost row d idv u hrow hjson hid hkey hurl hwf
    have hget : get_listing st listing_id = .ok (some (.dict d)) := by
      rw [get_listing, hrow]
      dsimp only
      rw [hjson]
    have hid' : dictGet (dictSet d "cost" (.int new_cost)) "id" = some idv := by
      rw [dictGet_dictSet_ne _ _ _ _ (by decide)]
      exact hid
    have hurl' : sqlTextBind (dictGet (dictSet d "cost" (.int new_cost)) "url") = .ok u := by
      rw [dictGet_dictSet_ne _ _ _ _ (by decide)]
      exact hurl
    have hadd := add_entry_eq st (dictSet d "cost" (.int new_cost)) idv listing_id u
      hid' hkey hurl'
    have hupd : update_listing_costs st listing_id new_cost =
        (true, upsertRow st ⟨listing_id, u,
          dumps (.dict (dictSet d "cost" (.int new_cost)))⟩) := by
      rw [update_listing_costs, hget]
      dsimp only
      rw [hadd]
    rw [hupd]
    refine ⟨rfl, ?_, ?_⟩
    · exact get_listing_upsert st listing_id u (dictSet d "cost" (.int new_cost))
        (wfVal_dictSet d "cost" (.int new_cost) hwf rfl)
    · intro k hk
      exact findRow_upsert_other st _ k hk
  · intro st listing_id new_cost hnone
    rw [update_listing_costs, get_listing, hnone]

/-- C9 witness: the update law at a one-row store, and the absent case at
the empty store. -/
theorem C9_witness :
    ((update_listing_costs [⟨1, some "u",
        dumps (.dict [("id", .int 1), ("url", .str "u"), ("cost", .int 5)])⟩] 1 9).1 = true ∧
     get_listing (update_listing_costs [⟨1, some "u",
        dumps (.dict [("id", .int 1), ("url", .str "u"), ("cost", .int 5)])⟩] 1 9).2 1 =
       .ok (some (.dict (dictSet [("id", .int 1), ("url", .str "u"), ("cost", .int 5)]
         "cost" (.int 9)))) ∧
     (∀ k, k ≠ 1 →
        findRow (update_listing_costs [⟨1, some "u",
          dumps (.dict [("id", .int 1), ("url", .str "u"), ("cost", .int 5)])⟩] 1 9).2 k =
        findRow [⟨1, some "u",
          dumps (.dict [("id", .int 1), ("url", .str "u"), ("cost", .int 5)])⟩] k)) ∧
    update_listing_costs [] 3 7 = (false, []) :=
  ⟨C9_update.1 [⟨1, some "u",
      dumps (.dict [("id", .int 1), ("url", .str "u"), ("cost", .int 5)])⟩] 1 9
      ⟨1, some "u", dumps (.dict [("id", .int 1), ("url", .str "u"), ("cost", .int 5)])⟩
      [("id", .int 1), ("url", .str "u"), ("cost", .int 5)] (.int 1) (some "u")
      rfl rfl rfl rfl rfl rfl,
   C9_update.2 [] 3 7 rfl⟩

/-- C10: the `Cover` accessor returns `""` when the record's `images`
value is an empty (falsy) list but raises `KeyError` when the `images`
key is absent, unlike every other recognized non-derived field, which
falls back to `""` when its key is absent. -/
theorem C10_cover :
    (∀ d : PyDict, dictGet d "images" = some (.list []) →
       extract_field_from_listing "Cover" d = .ok (.str "")) ∧
    (∀ d : PyDict, dictGet d "images" = Option.none →
       extract_field_from_listing "Cover" d = .error .keyError) ∧
    (∀ (lbl key : String) (d : PyDict),
       alistGet CHECKBOX_FIELD_MAPPING lbl = some key → key ≠ "cost" → key ≠ "cover" →
       dictGet d key = Option.none → extract_field_from_listing lbl d = .ok (.str "")) := by
  refine ⟨?_, ?_, ?_⟩
  · intro d h
    have hred : extract_field_from_listing "Cover" d =
        (match dictGet d "images" with
         | Option.none => .error .keyError
         | some imgs => if pyTruthy imgs then pyFirstItem imgs else .ok (.str "")) := rfl
    rw [hred, h]
    rfl
  · intro d h
    have hred : extract_field_from_listing "Cover" d =
        (match dictGet d "images" with
         | Option.none => .error .keyError
         | some imgs => if pyTruthy imgs then pyFirstItem imgs else .ok (.str "")) := rfl
    rw [hred, h]
  · intro lbl key d halist h1 h2 h3
    rw [extract_field_from_listing, halist]
    dsimp only
    rw [if_neg h1, if_neg h2, dictGetD, h3]
    rfl

/-- C10 witness: empty-list cover, absent-images KeyError and the
empty-string default of another mapped field, at concrete records. -/
theorem C10_witness :
    extract_field_from_listing "Cover" [("images", .list [])] = .ok (.str "") ∧
    extract_field_from_listing "Cover" [("id", .int 1)] = .error .keyError ∧
    extract_field_from_listing "Location" [("id", .int 1)] = .ok (.str "") :=
  ⟨C10_cover.1 [("images", .list [])] rfl,
   C10_cover.2.1 [("id", .int 1)] rfl,
   C10_cover.2.2 "Location" "location" [("id", .int 1)] rfl (by decide) (by decide) rfl⟩

end Airbnb
